import Mathlib

/-
Formal model of the pattern-learning and privacy-preserving resampling core of
the synthetic-data-mcp repository.

Shallow embedding conventions:
* Python numbers (ints and floats) are modelled as exact rationals (ℚ);
  pandas/NumPy NaN results are modelled with Option (none = NaN).
* A tabular cell is a tagged value (Val): Null, Number or Text.
* Randomness (np.random, faker) is modelled by an oracle (Rng) of draw
  functions; theorems quantify over every oracle.
* Fallible Python code (raise) is modelled with Except String.
* Source files modelled here: src/synthetic_data_mcp/core/generator.py,
  src/synthetic_data_mcp/ingestion/knowledge_loader.py and
  src/synthetic_data_mcp/ingestion/data_ingestion.py.  The module
  src/synthetic_data_mcp/ingestion/pattern_analyzer.py is imported by
  generator.py but absent from the repository snapshot; the one function of it
  that generator.py consumes (generate_pattern_summary) is modelled from the
  specification and marked as such in its doc comment.
-/

set_option maxRecDepth 8000

namespace SDMcp

/-- Tagged value held by one cell of a tabular record set: Null (Python
None / NaN), a number, or text.  (Timestamps and booleans play no role in any
of the verified properties and are omitted from the variant.) -/
inductive Val where
  | null : Val
  | num (q : ℚ) : Val
  | txt (s : String) : Val
deriving DecidableEq

/-- A record (one row): an association list from field name to value, in
field order. -/
abbrev Rec := List (String × Val)

/-- Association-list lookup used for records and stores (mirrors Python dict
access: first matching key wins; keys are unique in all dicts we model). -/
def alookup {α : Type} (key : String) : List (String × α) → Option α
  | [] => none
  | (k, v) :: rest => if k = key then some v else alookup key rest

/-- First-seen-order deduplication (auxiliary, structural recursion): keeps
the first occurrence of each element of the first list that is not in
`seen`. -/
def dedupAux {α : Type} [DecidableEq α] : List α → List α → List α
  | [], _ => []
  | x :: xs, seen =>
      if x ∈ seen then dedupAux xs seen else x :: dedupAux xs (x :: seen)

/-- First-seen-order deduplication of a list. -/
def dedupFS {α : Type} [DecidableEq α] (l : List α) : List α := dedupAux l []

/-- Column names of a record set: the union of the rows' keys in first-seen
order (pandas `pd.DataFrame(list_of_dicts).columns`). -/
def colNames (rows : List Rec) : List String :=
  dedupFS ((rows.map (fun r => r.map Prod.fst)).flatten)

/-- Values of one column of a record set, one per row; a key missing from a
row yields Null (pandas fills missing cells with NaN). -/
def colValues (rows : List Rec) (c : String) : List Val :=
  rows.map (fun r => (alookup c r).getD Val.null)

/-- Non-null values of a column (pandas mean/std/value_counts skip NaN). -/
def nonNull (c : List Val) : List Val := c.filter (fun v => v ≠ Val.null)

/-- Numeric payloads of a column. -/
def numsOf (c : List Val) : List ℚ := c.filterMap (fun v =>
  match v with
  | Val.num q => some q
  | _ => none)

/-- Effectful map over a list in the Except monad (structural recursion, so
that concrete instances evaluate inside the kernel): the first error aborts,
exactly as the first Python exception would propagate out of a loop. -/
def exMapM {α β : Type} (f : α → Except String β) : List α → Except String (List β)
  | [] => Except.ok []
  | x :: xs => do
      let y ← f x
      let ys ← exMapM f xs
      pure (y :: ys)

/-- Whether a value is a number. -/
def isNum : Val → Bool
  | Val.num _ => true
  | _ => false

/-!  Model of `core/generator.py` (`SyntheticDataGenerator`). -/

/-- Privacy level enum (`schemas/base.py`, absent from the snapshot; only its
`.value` string is consumed by the modelled code, for reporting). -/
inductive PrivacyLevel where
  | low | medium | high
deriving DecidableEq

/-- String payload of a privacy level (`privacy_level.value`). -/
def PrivacyLevel.value : PrivacyLevel → String
  | .low => "low"
  | .medium => "medium"
  | .high => "high"

/-- One entry of the per-column `distributions` mapping consumed by
`SyntheticDataGenerator.generate_from_pattern` (generator.py:307-337): a dict
with a `type` tag and the learned parameters.  Categorical frequency tables
are association lists value → probability. -/
inductive Dist where
  | numeric (mean std : ℚ) : Dist
  | categorical (frequencies : List (Val × ℚ)) : Dist
  | temporal (minDate maxDate : ℚ) : Dist
  | other : Dist
deriving DecidableEq

/-- A learned pattern as stored in `self.learned_patterns[pattern_id]`
(generator.py:258-263).  The stored `knowledge` component is never consumed
by `generate_from_pattern` and is not carried. -/
structure PatternInfo where
  domain : String
  distributions : List (String × Dist)
  sampleCount : ℕ
deriving DecidableEq

/-- The Pattern Store `self.learned_patterns`: an association list from
pattern id to learned pattern (newest first; Python dict assignment of a
fresh key). -/
abbrev Store := List (String × PatternInfo)

/-- Randomness oracle: one abstract draw per (row index, column name).
`zDraw` models a standard-normal draw, `choiceIdx` the index drawn by
np.random.choice, `dtBetween` the ISO string produced by
faker.date_time_between, `filler` faker.text. -/
structure Rng where
  zDraw : ℕ → String → ℚ
  choiceIdx : ℕ → String → ℕ
  dtBetween : ℕ → String → ℚ → ℚ → String
  filler : ℕ → String → String

/-- Tolerance used by np.random.choice when validating that probabilities
sum to 1: sqrt of the float64 machine epsilon, i.e. exactly 2⁻²⁶. -/
def npChoiceAtol : ℚ := 1 / 2 ^ 26

/-- Model of `np.random.choice(values, p=probabilities)`
(generator.py:319-321): validates the probability vector (non-negative,
sums to 1 within tolerance, else raises ValueError), then draws one of the
keys. -/
def npChoice (rng : Rng) (i : ℕ) (col : String) (freqs : List (Val × ℚ)) :
    Except String Val :=
  if freqs.any (fun p => p.2 < 0) then
    Except.error ("probabilities are not non-negative")
  else if |((freqs.map Prod.snd).sum) - 1| > npChoiceAtol then
    Except.error ("probabilities do not sum to 1")
  else
    Except.ok (freqs.getD (rng.choiceIdx i col % freqs.length) (Val.null, 0)).1

/-- Model of `np.random.normal(mean, scale)` (generator.py:312): raises on a
negative scale, otherwise mean + scale · z with z a standard-normal draw.
A zero scale therefore collapses deterministically to the mean. -/
def npNormal (rng : Rng) (i : ℕ) (col : String) (mean scale : ℚ) :
    Except String ℚ :=
  if scale < 0 then Except.error ("scale < 0")
  else Except.ok (mean + scale * rng.zDraw i col)

/-- Generation of a single field of row `i` (generator.py:307-337), one
branch per distribution type. -/
def genField (rng : Rng) (variation : ℚ) (i : ℕ) :
    String × Dist → Except String (String × Val)
  | (col, Dist.numeric mean std) =>
      (npNormal rng i col mean (std * variation)).map (fun q => (col, Val.num q))
  | (col, Dist.categorical freqs) =>
      if freqs.isEmpty then
        Except.ok (col, Val.txt ("synthetic_" ++ toString i))
      else
        (npChoice rng i col freqs).map (fun v => (col, v))
  | (col, Dist.temporal minD maxD) =>
      Except.ok (col, Val.txt (rng.dtBetween i col minD maxD))
  | (col, Dist.other) =>
      Except.ok (col, Val.txt (rng.filler i col))

/-- Generation of one row (generator.py:303-339): every learned column in
order; the first failing field aborts the call, as the Python exception
would. -/
def genRecord (rng : Rng) (dists : List (String × Dist)) (variation : ℚ)
    (i : ℕ) : Except String Rec :=
  exMapM (genField rng variation i) dists

/-- Metadata attached to a generated batch (generator.py:346-350). -/
structure GenMetadata where
  variation : ℚ
  privacyLevel : String
  generatedAt : String
deriving DecidableEq

/-- The dict returned by a successful `generate_from_pattern` call
(generator.py:341-351). -/
structure GenResult where
  success : Bool
  patternId : String
  recordsGenerated : ℤ
  data : List Rec
  metadata : GenMetadata
deriving DecidableEq

/-- Model of `SyntheticDataGenerator.generate_from_pattern`
(generator.py:274-351).  `recordCount` is an integer: `range(record_count)`
iterates max(record_count, 0) times while `records_generated` echoes the
argument itself.  An unknown pattern id RAISES
`ValueError(f"Pattern ID {pattern_id} not found")` (generator.py:293-294),
modelled as `Except.error`; `now` stands for `datetime.now().isoformat()`. -/
def generateFromPattern (store : Store) (pid : String) (recordCount : ℤ)
    (variation : ℚ) (privacy : PrivacyLevel) (now : String) (rng : Rng) :
    Except String GenResult :=
  match alookup pid store with
  | none => Except.error ("Pattern ID " ++ pid ++ " not found")
  | some info =>
      exMapM (genRecord rng info.distributions variation)
          (List.range recordCount.toNat) |>.map
        (fun rows =>
          { success := true
            patternId := pid
            recordsGenerated := recordCount
            data := rows
            metadata :=
              { variation := variation
                privacyLevel := privacy.value
                generatedAt := now } })

/-- Occurrence count of an element in a list (structural). -/
def cnt {α : Type} [DecidableEq α] (v : α) : List α → ℕ
  | [] => 0
  | w :: ws => (if w = v then 1 else 0) + cnt v ws

/-- Mean of a list of rationals (sum / length; pandas `.mean()` over the
non-null values). -/
def listMean (l : List ℚ) : ℚ := l.sum / l.length

/-- Population variance: mean squared deviation from the mean. -/
def popVar (l : List ℚ) : ℚ :=
  ((l.map (fun x => (x - listMean l) ^ 2)).sum) / l.length

/-- Squared value of pandas `.std()` (ddof = 1, the sample variance):
defined only when at least two values are present, NaN (none) otherwise.
The stored float std is the square root of this rational, so facts about
the std (being zero, being non-negative, differing from the population
std) are stated on the variance. -/
def sampleVar (l : List ℚ) : Option ℚ :=
  if 2 ≤ l.length then
    some (((l.map (fun x => (x - listMean l) ^ 2)).sum) / ((l.length : ℚ) - 1))
  else none

/-- Minimum of a list of rationals (0 on an empty list; pandas `.min()`
skips NaN and is only consumed on non-empty numeric columns). -/
def listMin : List ℚ → ℚ
  | [] => 0
  | x :: xs => xs.foldl min x

/-- Maximum of a list of rationals (0 on an empty list). -/
def listMax : List ℚ → ℚ
  | [] => 0
  | x :: xs => xs.foldl max x

/-- Whether pandas infers a numeric dtype for a column built from a list of
dicts: at least one numeric value and every value numeric or null (None and
missing cells become NaN inside a numeric column); an all-null or mixed
column keeps the object dtype. -/
def isNumericDtype (c : List Val) : Bool :=
  c.any isNum && c.all (fun v => isNum v || v == Val.null)

/-!  Spec-modelled learning step consumed by `generate_from_pattern`. -/

/-- Modelled from the spec: the categorical frequency table produced by the
missing `PatternAnalyzer.generate_pattern_summary`
(src/synthetic_data_mcp/ingestion/pattern_analyzer.py is imported by
generator.py but absent from the snapshot).  Spec §4.2: empirical
probability per distinct value; §3: the table sums to 1; §4.2 edge case: an
all-null field becomes categorical with one null-valued frequency entry. -/
def specCatTable (c : List Val) : List (Val × ℚ) :=
  if (nonNull c).isEmpty then [(Val.null, 1)]
  else (dedupFS (nonNull c)).map
    (fun v => (v, (cnt v (nonNull c) : ℚ) / ((nonNull c).length : ℚ)))

/-- Modelled from the spec: `PatternAnalyzer.generate_pattern_summary`, the
one function of the missing pattern_analyzer.py that
`SyntheticDataGenerator.learn_from_data` calls and whose result
`generate_from_pattern` consumes.  Spec §4.2: a field is numeric when every
non-null value parses as a number (an all-null field is categorical);
numeric parameters are the mean and the population std — the float square
root is irrational over ℚ and enters as the oracle `sqrtA`; every other
field is categorical with the empirical frequency table.  (Timestamps are
absent from the value variant, so the temporal class is never produced.) -/
def specFieldDist (sqrtA : ℚ → ℚ) (rows : List Rec) (c : String) : Dist :=
  if isNumericDtype (colValues rows c) then
    Dist.numeric (listMean (numsOf (colValues rows c)))
      (sqrtA (popVar (numsOf (colValues rows c))))
  else
    Dist.categorical (specCatTable (colValues rows c))

/-- Modelled from the spec (with `specFieldDist`): the full per-column
summary, one entry per column in column order. -/
def generatePatternSummary (sqrtA : ℚ → ℚ) (rows : List Rec) :
    List (String × Dist) :=
  (colNames rows).map (fun c => (c, specFieldDist sqrtA rows c))

/-- Model of `SyntheticDataGenerator.learn_from_data` (generator.py:231-272):
builds the pattern summary, forms `pattern_id =
f"pattern_{domain}_{timestamp}"` (`ts` stands for the strftime timestamp)
and stores the learned pattern under that id.  The stored knowledge
component of the entry is never read back by `generate_from_pattern` and is
not carried. -/
def learnFromData (store : Store) (rows : List Rec) (domain : String)
    (ts : String) (sqrtA : ℚ → ℚ) : String × Store :=
  let pid := "pattern_" ++ domain ++ "_" ++ ts
  (pid,
    (pid,
      { domain := domain
        distributions := generatePatternSummary sqrtA rows
        sampleCount := rows.length }) :: store)

/-- Well-formedness of one distribution entry, as np.random draws require:
a non-negative std for the normal draw and a validated probability vector
for the categorical draw. -/
def distWFb : Dist → Bool
  | Dist.numeric _ std => decide (0 ≤ std)
  | Dist.categorical freqs =>
      freqs.isEmpty ||
        (freqs.all (fun p => decide (0 ≤ p.2)) &&
          decide (|((freqs.map Prod.snd).sum) - 1| ≤ npChoiceAtol))
  | _ => true

/-- Well-formedness of a stored pattern: every distribution entry is
well-formed. -/
def patternWFb (info : PatternInfo) : Bool :=
  info.distributions.all (fun cd => distWFb cd.2)

/-!  Model of `ingestion/knowledge_loader.py` (`DynamicKnowledgeLoader`). -/

/-- Insertion of one (value, count) pair into a count-descending list,
before the first entry of smaller-or-equal count (keeps earlier = more
first-seen entries in front on ties, as pandas value_counts does). -/
def insVC (x : Val × ℕ) : List (Val × ℕ) → List (Val × ℕ)
  | [] => [x]
  | y :: ys => if y.2 ≤ x.2 then x :: y :: ys else y :: insVC x ys

/-- Stable sort of (value, count) pairs by descending count. -/
def sortVC : List (Val × ℕ) → List (Val × ℕ)
  | [] => []
  | x :: xs => insVC x (sortVC xs)

/-- Model of `series.value_counts()`: occurrence counts of the distinct
non-null values, most frequent first, ties in first-seen order. -/
def vcounts (c : List Val) : List (Val × ℕ) :=
  sortVC ((dedupFS (nonNull c)).map (fun v => (v, cnt v (nonNull c))))

/-- Insertion into a non-decreasing list of rationals. -/
def insSorted (x : ℚ) : List ℚ → List ℚ
  | [] => [x]
  | y :: ys => if x ≤ y then x :: y :: ys else y :: insSorted x ys

/-- Insertion sort of rationals (structural, so concrete statistics evaluate
inside the kernel). -/
def sortQ : List ℚ → List ℚ
  | [] => []
  | x :: xs => insSorted x (sortQ xs)

/-- Model of `series.quantile(q)` with pandas' default linear interpolation
on the sorted values. -/
def quantileQ (l : List ℚ) (q : ℚ) : ℚ :=
  let s := sortQ l
  let pos := q * ((s.length : ℚ) - 1)
  let i := (Int.floor pos).toNat
  let lo := s.getD i 0
  let hi := s.getD (i + 1) lo
  lo + (hi - lo) * (pos - (i : ℚ))

/-- Numeric entry of `_calculate_distributions`
(knowledge_loader.py:198-203): mean, std (carried as its square `varS`,
none = NaN), median and the three quartiles. -/
structure NumDist where
  mean : ℚ
  varS : Option ℚ
  median : ℚ
  q25 : ℚ
  q50 : ℚ
  q75 : ℚ
deriving DecidableEq

/-- Numeric statistics of `_calculate_distributions` over the non-null
values of a numeric-dtype column. -/
def numStats (nums : List ℚ) : NumDist :=
  { mean := listMean nums
    varS := sampleVar nums
    median := quantileQ nums (1 / 2)
    q25 := quantileQ nums (1 / 4)
    q50 := quantileQ nums (1 / 2)
    q75 := quantileQ nums (3 / 4) }

/-- Categorical entry of `_calculate_distributions`
(knowledge_loader.py:207-212): `value_counts / len(df)` plus the mode
(`value_counts.index[0]`, None when the counts are empty). -/
structure CatDist where
  frequencies : List (Val × ℚ)
  mode : Option Val
deriving DecidableEq

/-- Categorical statistics of `_calculate_distributions`: note the division
by the full row count `len(df)`, while value_counts drops nulls. -/
def catStats (nrows : ℕ) (c : List Val) : CatDist :=
  { frequencies := (vcounts c).map (fun p => (p.1, (p.2 : ℚ) / (nrows : ℚ)))
    mode := (vcounts c).head?.map Prod.fst }

/-- A per-column entry of the `distributions` dict built by
`_calculate_distributions`. -/
inductive LoadedDist where
  | numeric (d : NumDist) : LoadedDist
  | categorical (d : CatDist) : LoadedDist
deriving DecidableEq

/-- Model of `DynamicKnowledgeLoader._calculate_distributions`
(knowledge_loader.py:191-214): numeric-dtype columns get numeric
statistics, object-dtype columns get the frequency table (the Val variant
has no datetime dtype, so object = not numeric here). -/
def calculateDistributions (rows : List Rec) : List (String × LoadedDist) :=
  ((colNames rows).filter (fun c => isNumericDtype (colValues rows c))).map
      (fun c => (c, LoadedDist.numeric (numStats (numsOf (colValues rows c)))))
    ++ ((colNames rows).filter
          (fun c => !isNumericDtype (colValues rows c))).map
      (fun c =>
        (c, LoadedDist.categorical (catStats rows.length (colValues rows c))))

/-- Shape heuristic `_detect_distribution` (knowledge_loader.py:284-299).
Its skewness/kurtosis inputs are pandas sample statistics whose formulas
involve irrational square roots; they enter the surrounding model as oracle
values. -/
def detectDistribution (skew kurt : ℚ) : String :=
  if |skew| < 1 / 2 ∧ |kurt| < 1 / 2 then "normal"
  else if skew > 1 then "right_skewed"
  else if skew < -1 then "left_skewed"
  else "unknown"

/-- Numeric entry of `_analyze_patterns` (knowledge_loader.py:171-176):
the [min, max] range and the shape label. -/
structure NumPattern where
  rangeMin : ℚ
  rangeMax : ℚ
  distribution : String
deriving DecidableEq

/-- A per-column entry of the `patterns` dict of `_analyze_patterns`
(datetime columns cannot arise in the Val variant). -/
inductive ColPattern where
  | numeric (p : NumPattern) : ColPattern
  | categorical (uniqueValues : ℕ) (topValues : List (Val × ℕ)) : ColPattern
deriving DecidableEq

/-- Model of `DynamicKnowledgeLoader._analyze_patterns`
(knowledge_loader.py:166-189); `skewO` and `kurtO` supply the
skewness/kurtosis floats of the shape heuristic. -/
def analyzePatterns (skewO kurtO : List ℚ → ℚ) (rows : List Rec) :
    List (String × ColPattern) :=
  (colNames rows).map (fun c =>
    if isNumericDtype (colValues rows c) then
      (c, ColPattern.numeric
        { rangeMin := listMin (numsOf (colValues rows c))
          rangeMax := listMax (numsOf (colValues rows c))
          distribution := detectDistribution (skewO (numsOf (colValues rows c)))
            (kurtO (numsOf (colValues rows c))) })
    else
      (c, ColPattern.categorical (dedupFS (nonNull (colValues rows c))).length
        ((vcounts (colValues rows c)).take 10)))

/-- Distinct non-null values of column `b` inside the group of rows whose
column-`a` value equals `k` (`df.groupby(a)[b].nunique()` for one group:
nunique drops nulls). -/
def nuniqueGrp (a b : List Val) (k : Val) : ℕ :=
  (dedupFS (nonNull (((a.zip b).filter (fun p => p.1 = k)).map Prod.snd))).length

/-- Maximum of a list of naturals, none when empty (`series.max()` of an
empty aggregate is NaN, which compares unequal to every number). -/
def maxN? : List ℕ → Option ℕ
  | [] => none
  | x :: xs => some (xs.foldl max x)

/-- Functional-dependency test
`df.groupby(col1)[col2].nunique().max() == 1` (knowledge_loader.py:243):
groupby drops null keys, nunique counts distinct non-null values, and the
max of an empty aggregate is NaN. -/
def fdCode (a b : List Val) : Bool :=
  maxN? ((dedupFS (nonNull a)).map (nuniqueGrp a b)) == some 1

/-- The `dependencies` component built by
`DynamicKnowledgeLoader._discover_relationships`
(knowledge_loader.py:239-246), flattened to the list of ordered pairs
(determining field, determined field).  (The correlations component of the
same function normalizes by irrational standard deviations and is not
referenced by any verified property.) -/
def dependencies (rows : List Rec) : List (String × String) :=
  (colNames rows).flatMap (fun c1 =>
    (colNames rows).filterMap (fun c2 =>
      if c1 ≠ c2 ∧ fdCode (colValues rows c1) (colValues rows c2) = true then
        some (c1, c2)
      else none))

/-- Statement of the specification sentence on functional dependencies,
written from its words for comparison with `fdCode`: grouping the rows by
A's value yields, in every group, at most one distinct value of B (all
values, null included, form groups and are counted). -/
def specDetermines (a b : List Val) : Bool :=
  (dedupFS a).all (fun k =>
    decide
      ((dedupFS (((a.zip b).filter (fun p => p.1 = k)).map Prod.snd)).length ≤ 1))

/-!  Model of `ingestion/data_ingestion.py` (`DataIngestionPipeline`).
The anonymization hashes are real MD5 (hashlib.md5), implemented below over
byte lists with 32-bit arithmetic carried in ℕ. -/

/-- Addition modulo 2³². -/
def addW (a b : ℕ) : ℕ := (a + b) % 4294967296

/-- Bitwise complement of a 32-bit word. -/
def notW (a : ℕ) : ℕ := Nat.xor a 4294967295

/-- Left rotation of a 32-bit word by `c` bits (0 < c < 32). -/
def rotl (x c : ℕ) : ℕ := (x * 2 ^ c) % 4294967296 + x / 2 ^ (32 - c)

/-- Round function of MD5 (F, G, H, I by round index). -/
def md5F (i b c d : ℕ) : ℕ :=
  if i < 16 then Nat.lor (Nat.land b c) (Nat.land (notW b) d)
  else if i < 32 then Nat.lor (Nat.land d b) (Nat.land (notW d) c)
  else if i < 48 then Nat.xor b (Nat.xor c d)
  else Nat.xor c (Nat.lor b (notW d))

/-- Message-word index schedule of MD5. -/
def md5G (i : ℕ) : ℕ :=
  if i < 16 then i else if i < 32 then (5 * i + 1) % 16
  else if i < 48 then (3 * i + 5) % 16 else (7 * i) % 16

/-- Additive constants of MD5 (floor(2³² · |sin(i+1)|)). -/
def md5K : List ℕ :=
  [3614090360, 3905402710, 606105819, 3250441966, 4118548399, 1200080426,
   2821735955, 4249261313, 1770035416, 2336552879, 4294925233, 2304563134,
   1804603682, 4254626195, 2792965006, 1236535329, 4129170786, 3225465664,
   643717713, 3921069994, 3593408605, 38016083, 3634488961, 3889429448,
   568446438, 3275163606, 4107603335, 1163531501, 2850285829, 4243563512,
   1735328473, 2368359562, 4294588738, 2272392833, 1839030562, 4259657740,
   2763975236, 1272893353, 4139469664, 3200236656, 681279174, 3936430074,
   3572445317, 76029189, 3654602809, 3873151461, 530742520, 3299628645,
   4096336452, 1126891415, 2878612391, 4237533241, 1700485571, 2399980690,
   4293915773, 2240044497, 1873313359, 4264355552, 2734768916, 1309151649,
   4149444226, 3174756917, 718787259, 3951481745]

/-- Per-round rotation amounts of MD5. -/
def md5S : List ℕ :=
  [7, 12, 17, 22, 7, 12, 17, 22, 7, 12, 17, 22, 7, 12, 17, 22,
   5, 9, 14, 20, 5, 9, 14, 20, 5, 9, 14, 20, 5, 9, 14, 20,
   4, 11, 16, 23, 4, 11, 16, 23, 4, 11, 16, 23, 4, 11, 16, 23,
   6, 10, 15, 21, 6, 10, 15, 21, 6, 10, 15, 21, 6, 10, 15, 21]

/-- One MD5 round on the state (a, b, c, d) with message words `M`. -/
def md5Step (M : List ℕ) (st : ℕ × ℕ × ℕ × ℕ) (i : ℕ) : ℕ × ℕ × ℕ × ℕ :=
  let f := addW (addW (md5F i st.2.1 st.2.2.1 st.2.2.2) st.1)
      (addW (md5K.getD i 0) (M.getD (md5G i) 0))
  (st.2.2.2, addW st.2.1 (rotl f (md5S.getD i 0)), st.2.1, st.2.2.1)

/-- Compression of one 16-word block into the MD5 state. -/
def md5Block (st : ℕ × ℕ × ℕ × ℕ) (M : List ℕ) : ℕ × ℕ × ℕ × ℕ :=
  let r := (List.range 64).foldl (md5Step M) st
  (addW st.1 r.1, addW st.2.1 r.2.1, addW st.2.2.1 r.2.2.1,
    addW st.2.2.2 r.2.2.2)

/-- Absorption of a padded word stream, 16 words per block. -/
def md5Absorb : ℕ × ℕ × ℕ × ℕ → List ℕ → List ℕ → ℕ × ℕ × ℕ × ℕ
  | st, _, [] => st
  | st, buf, w :: ws =>
      if buf.length = 15 then md5Absorb (md5Block st (buf ++ [w])) [] ws
      else md5Absorb st (buf ++ [w]) ws

/-- Little-endian packing of bytes into 32-bit words. -/
def chunk4LE : List ℕ → List ℕ
  | b0 :: b1 :: b2 :: b3 :: rest =>
      (b0 + 256 * b1 + 65536 * b2 + 16777216 * b3) :: chunk4LE rest
  | _ => []

/-- Little-endian byte expansion of a value to `k` bytes. -/
def leBytes : ℕ → ℕ → List ℕ
  | 0, _ => []
  | k + 1, v => (v % 256) :: leBytes k (v / 256)

/-- MD5 padding: 0x80, zeros to 56 mod 64, then the bit length in 8
little-endian bytes. -/
def padBytes (msg : List ℕ) : List ℕ :=
  msg ++ [128] ++ List.replicate ((119 - msg.length % 64) % 64) 0 ++
    leBytes 8 (8 * msg.length)

/-- Initial MD5 state. -/
def md5Init : ℕ × ℕ × ℕ × ℕ := (1732584193, 4023233417, 2562383102, 271733878)

/-- MD5 state after digesting a byte message. -/
def md5Words (bytes : List ℕ) : ℕ × ℕ × ℕ × ℕ :=
  md5Absorb md5Init [] (chunk4LE (padBytes bytes))

/-- Lowercase hex digit. -/
def hexChar (n : ℕ) : Char :=
  if n < 10 then Char.ofNat (48 + n) else Char.ofNat (87 + n)

/-- Two lowercase hex digits of a byte. -/
def byteHex (b : ℕ) : List Char := [hexChar (b / 16), hexChar (b % 16)]

/-- Eight hex digits of a 32-bit word, little-endian byte order (as
hexdigest prints the digest bytes). -/
def wordHexLE (w : ℕ) : List Char :=
  byteHex (w % 256) ++ byteHex (w / 256 % 256) ++ byteHex (w / 65536 % 256) ++
    byteHex (w / 16777216 % 256)

/-- Model of `hashlib.md5(bytes).hexdigest()`: the 32-character lowercase
hex digest. -/
def md5hex (bytes : List ℕ) : String :=
  let r := md5Words bytes
  String.mk (wordHexLE r.1 ++ wordHexLE r.2.1 ++ wordHexLE r.2.2.1 ++
    wordHexLE r.2.2.2)

/-- Bytes of `s.encode()`: character codepoints, which coincide with the
UTF-8 bytes for the ASCII strings all verified properties use. -/
def strBytes (s : String) : List ℕ := s.data.map Char.toNat

/-- Model of `hashlib.md5(s.encode()).hexdigest()[:8]`
(data_ingestion.py:319). -/
def md5hex8 (s : String) : String := (md5hex (strBytes s)).take 8

/-- Whether a suffix of the character list satisfies `f` (used for
regex-style searching anywhere in a string). -/
def anyTail (f : List Char → Bool) : List Char → Bool
  | [] => f []
  | c :: cs => f (c :: cs) || anyTail f cs

/-- Whether the second list is an initial segment of the first's argument
order: `startsL pat l`. -/
def startsL : List Char → List Char → Bool
  | [], _ => true
  | _ :: _, [] => false
  | a :: as, b :: bs => a = b && startsL as bs

/-- Python `t in s` on strings: `t` occurs as a contiguous substring. -/
def hasSub (s t : String) : Bool := anyTail (startsL t.data) s.data

/-- Characters matched by the regex class `[-.\s]` (dot is literal inside
the class). -/
def isSepC (c : Char) : Bool :=
  c = '-' || c = '.' || c = ' ' || c = '\t' || c = '\n' || c = '\r'

/-- Consume exactly `n` ASCII digits, returning the rest. -/
def digitsN : ℕ → List Char → Option (List Char)
  | 0, l => some l
  | _ + 1, [] => none
  | n + 1, c :: l => if c.isDigit then digitsN n l else none

/-- Both continuations of an optional separator (`[-.\s]?`). -/
def optSep (l : List Char) : List (List Char) :=
  match l with
  | c :: r => if isSepC c then [c :: r, r] else [c :: r]
  | [] => [[]]

/-- Match of the phone regex `\d{3}[-.\s]?\d{3}[-.\s]?\d{4}` at the head of
the list. -/
def phoneAt (l : List Char) : Bool :=
  match digitsN 3 l with
  | none => false
  | some l1 => (optSep l1).any (fun l2 =>
      match digitsN 3 l2 with
      | none => false
      | some l3 => (optSep l3).any (fun l4 => (digitsN 4 l4).isSome))

/-- `series.str.contains` search for the phone pattern. -/
def hasPhonePat (s : String) : Bool := anyTail phoneAt s.data

/-- Match of the SSN regex `\d{3}-\d{2}-\d{4}` at the head of the list. -/
def ssnAt (l : List Char) : Bool :=
  match digitsN 3 l with
  | none => false
  | some l1 =>
      match l1 with
      | '-' :: l2 =>
          (match digitsN 2 l2 with
           | none => false
           | some l3 =>
               match l3 with
               | '-' :: l4 => (digitsN 4 l4).isSome
               | _ => false)
      | _ => false

/-- `series.str.contains` search for the SSN pattern. -/
def hasSsnPat (s : String) : Bool := anyTail ssnAt s.data

/-- PII keyword list of `_is_potential_pii` (data_ingestion.py:287-291). -/
def piiKeywords : List String :=
  ["name", "email", "phone", "address", "ssn", "social", "dob", "birth",
   "passport", "license", "account", "card", "patient", "member", "customer"]

/-- Text payload test. -/
def isTxt : Val → Bool
  | Val.txt _ => true
  | _ => false

/-- Model of `DataIngestionPipeline._is_potential_pii`
(data_ingestion.py:285-311): a keyword inside the lowered column name, or —
on an object-dtype column — an email/phone/SSN pattern among the first ten
non-null sampled values (`series.str` yields no match on non-string
values). -/
def isPotentialPii (name : String) (col : List Val) : Bool :=
  piiKeywords.any (fun k => hasSub name.toLower k) ||
    (!isNumericDtype col &&
      (let sample := (nonNull col).take 10
       sample.any (fun v =>
         match v with
         | Val.txt s => hasSub s ("@")
         | _ => false) ||
       sample.any (fun v =>
         match v with
         | Val.txt s => hasPhonePat s
         | _ => false) ||
       sample.any (fun v =>
         match v with
         | Val.txt s => hasSsnPat s
         | _ => false)))

/-- Split of a character list at a separator character (Python
`str.split`). -/
def splitChar (c : Char) : List Char → List (List Char)
  | [] => [[]]
  | x :: xs =>
      let r := splitChar c xs
      if x = c then [] :: r
      else
        match r with
        | h :: t => (x :: h) :: t
        | [] => [[x]]

/-- Model of the per-value closure `hash_email` of
`DataIngestionPipeline._anonymize_email` (data_ingestion.py:315-320): None
passes through; `local, domain = email.split('@') if '@' in email else
(email, 'example.com')` raises ValueError when the split has more than two
parts (an email containing several '@'); the hash keeps the first 8 hex
digits of the MD5 of the local part; a non-string value makes `'@' in
email` raise TypeError. -/
def hashEmail : Val → Except String Val
  | Val.null => Except.ok Val.null
  | Val.num _ => Except.error ("TypeError: argument of type is not iterable")
  | Val.txt s =>
      let parts := splitChar '@' s.data
      if parts.length = 1 then
        Except.ok (Val.txt ("user_" ++ md5hex8 s ++ "@example.com"))
      else if parts.length = 2 then
        Except.ok (Val.txt ("user_" ++ md5hex8 (String.mk (parts.getD 0 []))
          ++ "@" ++ String.mk (parts.getD 1 [])))
      else Except.error ("ValueError: too many values to unpack")

/-- Python `str(x)` on a cell, with the float rendering supplied as an
oracle `numRepr` (its exact decimal formatting is irrelevant to every
verified property). -/
def valStr (numRepr : ℚ → String) : Val → String
  | Val.null => "None"
  | Val.num q => numRepr q
  | Val.txt s => s

/-- Model of the closure of `_anonymize_phone` (data_ingestion.py:325-331):
keep the first 3 and last 2 characters of `str(phone)` when it has at
least 10, otherwise a constant mask; None passes through. -/
def maskPhone (numRepr : ℚ → String) : Val → Val
  | Val.null => Val.null
  | v =>
      let s := valStr numRepr v
      if 10 ≤ s.length then
        Val.txt (String.mk (s.data.take 3) ++ "-XXX-XX" ++
          String.mk (s.data.drop (s.length - 2)))
      else Val.txt ("XXX-XXX-XXXX")

/-- Model of `_anonymize_ssn` (data_ingestion.py:336): mask all but the
last 4 characters; a null or short value becomes the constant mask. -/
def maskSsn (numRepr : ℚ → String) : Val → Val
  | Val.null => Val.txt ("XXX-XX-XXXX")
  | v =>
      let s := valStr numRepr v
      if 4 ≤ s.length then
        Val.txt ("XXX-XX-" ++ String.mk (s.data.drop (s.length - 4)))
      else Val.txt ("XXX-XX-XXXX")

/-- Model of `_anonymize_name` (data_ingestion.py:340): Person_ plus the
first 6 hex digits of the MD5 of `str(x)`; None passes through. -/
def maskName (numRepr : ℚ → String) : Val → Val
  | Val.null => Val.null
  | v => Val.txt ("Person_" ++ (md5hex (strBytes (valStr numRepr v))).take 6)

/-- Model of `_anonymize_address` (data_ingestion.py:344): constant
redaction marker; None passes through. -/
def maskAddr : Val → Val
  | Val.null => Val.null
  | _ => Val.txt ("Address_Redacted")

/-- The PII report dict of `_anonymize_data` (data_ingestion.py:246-250,
279-281). -/
structure PiiReport where
  detectedColumns : List String
  anonymizationApplied : List (String × String)
  riskScore : ℚ
deriving DecidableEq

/-- A data frame in column-major form: column name with its cell list, in
column order. -/
abbrev Cols := List (String × List Val)

/-- Anonymization applied to one detected column
(data_ingestion.py:259-277): dispatch on the lowered column name; a
detected column matching no branch (e.g. "passport") is reported but kept
unchanged; the date-of-birth branch rewrites only datetime64 columns, which
the value variant cannot hold, so it also keeps the column.  Returns the
new column and the recorded transform name. -/
def anonymizeCol (numRepr : ℚ → String) (name : String) (col : List Val) :
    Except String (List Val × Option String) :=
  let low := name.toLower
  if hasSub low ("email") then
    (exMapM hashEmail col).map (fun c => (c, some ("email_hash")))
  else if hasSub low ("phone") then
    Except.ok (col.map (maskPhone numRepr), some ("phone_mask"))
  else if hasSub low ("ssn") || hasSub low ("social") then
    Except.ok (col.map (maskSsn numRepr), some ("ssn_mask"))
  else if hasSub low ("name") then
    Except.ok (col.map (maskName numRepr), some ("name_generalize"))
  else if hasSub low ("address") then
    Except.ok (col.map maskAddr, some ("address_generalize"))
  else if hasSub low ("date") && hasSub low ("birth") then
    Except.ok (col, some ("dob_generalize"))
  else
    Except.ok (col, none)

/-- Processing of one column of the loop of `_anonymize_data`
(data_ingestion.py:254-277): a detected column is anonymized and recorded
(with the transform name when one of the branches applied); an undetected
column passes through untouched. -/
def anonStep (numRepr : ℚ → String) (nc : String × List Val) :
    Except String ((String × List Val) × Option (String × Option String)) :=
  if isPotentialPii nc.1 nc.2 then
    (anonymizeCol numRepr nc.1 nc.2).map
      (fun r => ((nc.1, r.1), some (nc.1, r.2)))
  else
    Except.ok ((nc.1, nc.2), none)

/-- Model of `DataIngestionPipeline._anonymize_data`
(data_ingestion.py:236-283): the frame is copied (`df.copy()`) and only
detected columns of the copy are reassigned, so the function is a pure map
from the input frame to (anonymized frame, PII report); risk score =
detected / total columns, 0 when nothing was detected. -/
def anonymizeData (numRepr : ℚ → String) (cols : Cols) :
    Except String (Cols × PiiReport) :=
  (exMapM (anonStep numRepr) cols).map (fun processed =>
    (processed.map Prod.fst,
      { detectedColumns := (processed.filterMap Prod.snd).map Prod.fst
        anonymizationApplied :=
          (processed.filterMap Prod.snd).filterMap
            (fun p => p.2.map (fun t => (p.1, t)))
        riskScore :=
          if ((processed.filterMap Prod.snd).map Prod.fst).isEmpty then 0
          else (((processed.filterMap Prod.snd).map Prod.fst).length : ℚ) /
            (cols.length : ℚ) }))

/-- A concrete randomness oracle (all draws constant), used to instantiate
theorems on concrete inputs. -/
def rng0 : Rng :=
  { zDraw := fun _ _ => 0
    choiceIdx := fun _ _ => 0
    dtBetween := fun _ _ _ _ => ""
    filler := fun _ _ => "" }

/-!  General lemmas about the embedding combinators. -/

theorem exMapM_ok_length {α β : Type} (f : α → Except String β) :
    ∀ (l : List α) (res : List β), exMapM f l = Except.ok res →
      res.length = l.length := by
  intro l
  induction l with
  | nil => intro res h; cases h; rfl
  | cons x xs ih =>
      intro res h
      cases hx : f x with
      | error e => rw [exMapM, hx] at h; cases h
      | ok y =>
          cases hxs : exMapM f xs with
          | error e => rw [exMapM, hx, hxs] at h; cases h
          | ok ys =>
              rw [exMapM, hx, hxs] at h
              cases h
              simp [ih ys hxs]

theorem exMapM_total {α β : Type} (f : α → Except String β) :
    ∀ l : List α, (∀ x ∈ l, ∃ y, f x = Except.ok y) →
      ∃ res, exMapM f l = Except.ok res ∧ res.length = l.length := by
  intro l
  induction l with
  | nil => intro _; exact ⟨[], rfl, rfl⟩
  | cons x xs ih =>
      intro h
      obtain ⟨y, hy⟩ := h x (List.mem_cons_self x xs)
      obtain ⟨ys, hys, hlen⟩ := ih (fun z hz => h z (List.mem_cons_of_mem x hz))
      refine ⟨y :: ys, ?_, by simp [hlen]⟩
      rw [exMapM, hy, hys]; rfl

theorem exMapM_const {α β : Type} (b : β) :
    ∀ l : List α, exMapM (fun _ => Except.ok b) l =
      Except.ok (List.replicate l.length b) := by
  intro l
  induction l with
  | nil => rfl
  | cons x xs ih => rw [exMapM, ih]; rfl

theorem exMapM_mem {α β : Type} (f : α → Except String β) :
    ∀ (l : List α) (res : List β), exMapM f l = Except.ok res →
      ∀ y ∈ res, ∃ x ∈ l, f x = Except.ok y := by
  intro l
  induction l with
  | nil => intro res h; cases h; intro y hy; cases hy
  | cons x xs ih =>
      intro res h
      cases hx : f x with
      | error e => rw [exMapM, hx] at h; cases h
      | ok y₀ =>
          cases hxs : exMapM f xs with
          | error e => rw [exMapM, hx, hxs] at h; cases h
          | ok ys =>
              rw [exMapM, hx, hxs] at h
              cases h
              intro y hy
              rcases List.mem_cons.mp hy with h1 | h2
              · exact ⟨x, List.mem_cons_self x xs, h1 ▸ hx⟩
              · obtain ⟨x', hx', hfx'⟩ := ih ys hxs y h2
                exact ⟨x', List.mem_cons_of_mem x hx', hfx'⟩

theorem exMapM_getElem {α β : Type} (f : α → Except String β) :
    ∀ (l : List α) (res : List β), exMapM f l = Except.ok res →
      ∀ (i : ℕ) (x : α), l[i]? = some x →
        ∃ y, res[i]? = some y ∧ f x = Except.ok y := by
  intro l
  induction l with
  | nil => intro res h; cases h; intro i x hx; cases i <;> cases hx
  | cons z zs ih =>
      intro res h
      cases hz : f z with
      | error e => rw [exMapM, hz] at h; cases h
      | ok y₀ =>
          cases hzs : exMapM f zs with
          | error e => rw [exMapM, hz, hzs] at h; cases h
          | ok ys =>
              rw [exMapM, hz, hzs] at h
              cases h
              intro i x hx
              cases i with
              | zero =>
                  simp only [List.getElem?_cons_zero] at hx
                  cases hx
                  exact ⟨y₀, by simp, hz⟩
              | succ j =>
                  simp only [List.getElem?_cons_succ] at hx ⊢
                  exact ih ys hzs j x hx

/-- Association lookup through an effectful map that preserves keys: the
image list has the same keys in the same order, and the looked-up value is
the image of the first hit. -/
theorem exMapM_alookup {α β : Type}
    (f : String × α → Except String (String × β)) :
    ∀ (l : List (String × α)) (res : List (String × β)),
      (∀ x y, f x = Except.ok y → y.1 = x.1) →
      exMapM f l = Except.ok res →
      ∀ (k : String) (d : α), alookup k l = some d →
        ∃ y, f (k, d) = Except.ok (k, y) ∧ alookup k res = some y := by
  intro l
  induction l with
  | nil => intro res _ h k d hd; cases hd
  | cons x xs ih =>
      intro res hkey h k d hd
      obtain ⟨x1, x2⟩ := x
      cases hx : f (x1, x2) with
      | error e => rw [exMapM, hx] at h; cases h
      | ok y₀ =>
          cases hxs : exMapM f xs with
          | error e => rw [exMapM, hx, hxs] at h; cases h
          | ok ys =>
              rw [exMapM, hx, hxs] at h
              cases h
              obtain ⟨y1, y2⟩ := y₀
              have hy₀ : y1 = x1 := hkey (x1, x2) (y1, y2) hx
              rw [alookup] at hd
              by_cases hk : x1 = k
              · rw [if_pos hk] at hd
                injection hd with hd'
                subst hd'
                subst hk
                subst hy₀
                exact ⟨y2, hx, by rw [alookup, if_pos rfl]⟩
              · rw [if_neg hk] at hd
                obtain ⟨y, hfy, hly⟩ := ih ys hkey hxs k d hd
                refine ⟨y, hfy, ?_⟩
                rw [alookup, if_neg (hy₀ ▸ hk), hly]

/-- Lookup in an association list tabulating a function over a name list. -/
theorem alookup_tabulate {β : Type} (F : String → β) :
    ∀ (names : List String) (k : String),
      alookup k (names.map (fun c => (c, F c))) =
        if k ∈ names then some (F k) else none := by
  intro names
  induction names with
  | nil => intro k; simp [alookup]
  | cons c cs ih =>
      intro k
      by_cases hc : c = k
      · subst hc; simp [alookup, ih]
      · simp only [List.map_cons, alookup, if_neg hc, ih]
        simp [List.mem_cons, Ne.symm hc]

/-- Unfolding of `generateFromPattern` on a registered id. -/
theorem generateFromPattern_found (store : Store) (pid : String)
    (info : PatternInfo) (recordCount : ℤ) (variation : ℚ)
    (privacy : PrivacyLevel) (now : String) (rng : Rng)
    (h : alookup pid store = some info) :
    generateFromPattern store pid recordCount variation privacy now rng =
      (exMapM (genRecord rng info.distributions variation)
          (List.range recordCount.toNat)).map
        (fun rows =>
          { success := true
            patternId := pid
            recordsGenerated := recordCount
            data := rows
            metadata :=
              { variation := variation
                privacyLevel := privacy.value
                generatedAt := now } }) := by
  rw [generateFromPattern, h]

/-!  Claim C1: resampling an unknown pattern id.  The repository's own test
(tests/test_data_generation.py, test_generate_from_pattern_not_found)
expects a returned error dict, while generator.py:293-294 raises ValueError
instead; the raise leaves the Pattern Store untouched (the function only
reads it). -/

/-- Claim C1: for every pattern identifier absent from the store of learned
patterns, `generate_from_pattern` RAISES
ValueError(f"Pattern ID {pattern_id} not found") — it does not return a
`{success: false, error: "PatternNotFound"}` value as the specification and
the repository's own test expect.  The store, which the call only reads, is
left unchanged. -/
theorem c1_unknown_pattern_raises (store : Store) (pid : String)
    (recordCount : ℤ) (variation : ℚ) (privacy : PrivacyLevel) (now : String)
    (rng : Rng) (h : alookup pid store = none) :
    generateFromPattern store pid recordCount variation privacy now rng =
      Except.error ("Pattern ID " ++ pid ++ " not found") := by
  rw [generateFromPattern, h]

/-- Witness for C1 at the concrete input of the repository's failing test:
a fresh (empty) store and pattern id "nonexistent_pattern". -/
theorem c1_unknown_pattern_raises_witness :
    generateFromPattern [] ("nonexistent_pattern") 5 (3 / 10)
        PrivacyLevel.medium ("2024-01-01T00:00:00") rng0 =
      Except.error ("Pattern ID nonexistent_pattern not found") := by
  have h := c1_unknown_pattern_raises [] ("nonexistent_pattern") 5 (3 / 10)
    PrivacyLevel.medium ("2024-01-01T00:00:00") rng0 rfl
  simpa using h

/-!  Claim C10: non-positive record counts. -/

/-- Claim C10: for every registered pattern identifier and every record
count ≤ 0, `generate_from_pattern` succeeds (`range` of a non-positive
count is empty): it returns success = true with an empty data list, while
`records_generated` still echoes the requested non-positive count rather
than the actual row count 0. -/
theorem c10_nonpositive_count (store : Store) (pid : String)
    (info : PatternInfo) (recordCount : ℤ) (variation : ℚ)
    (privacy : PrivacyLevel) (now : String) (rng : Rng)
    (hlook : alookup pid store = some info) (hn : recordCount ≤ 0) :
    generateFromPattern store pid recordCount variation privacy now rng =
      Except.ok
        { success := true
          patternId := pid
          recordsGenerated := recordCount
          data := []
          metadata :=
            { variation := variation
              privacyLevel := privacy.value
              generatedAt := now } } := by
  rw [generateFromPattern, hlook]
  have h0 : recordCount.toNat = 0 := Int.toNat_of_nonpos hn
  rw [h0]
  rfl

/-- Witness for C10: a one-pattern store and record count −2; the call
succeeds with an empty data list and records_generated = −2. -/
theorem c10_nonpositive_count_witness :
    generateFromPattern
        [("p", { domain := "custom"
                 distributions := [("x", Dist.numeric 5 1)]
                 sampleCount := 2 })] ("p") (-2) (3 / 10)
        PrivacyLevel.medium ("now") rng0 =
      Except.ok
        { success := true
          patternId := "p"
          recordsGenerated := -2
          data := []
          metadata :=
            { variation := 3 / 10
              privacyLevel := "medium"
              generatedAt := "now" } } := by
  have h := c10_nonpositive_count
    [("p", { domain := "custom"
             distributions := [("x", Dist.numeric 5 1)]
             sampleCount := 2 })] ("p")
    { domain := "custom"
      distributions := [("x", Dist.numeric 5 1)]
      sampleCount := 2 } (-2) (3 / 10) PrivacyLevel.medium ("now") rng0
    (by rfl) (by decide)
  simpa using h

/-!  Claim C8: learning from zero rows. -/

/-- Claim C8: learning from an empty record set does not fail: it returns a
pattern id bound to a degenerate learned pattern with empty field profiles,
and resampling that id succeeds deterministically — for every pair of
randomness oracles the result is the same batch of empty placeholder rows.
(The learning step flows through the spec-modelled
`generatePatternSummary`, which on zero rows yields no field profiles.) -/
theorem c8_empty_learning (store : Store) (domain ts : String)
    (sqrtA : ℚ → ℚ) (n : ℤ) (variation : ℚ) (privacy : PrivacyLevel)
    (now : String) (rng : Rng) :
    (learnFromData store [] domain ts sqrtA).1 =
        "pattern_" ++ domain ++ "_" ++ ts ∧
    alookup (learnFromData store [] domain ts sqrtA).1
        (learnFromData store [] domain ts sqrtA).2 =
      some { domain := domain, distributions := [], sampleCount := 0 } ∧
    generateFromPattern (learnFromData store [] domain ts sqrtA).2
        (learnFromData store [] domain ts sqrtA).1 n variation privacy now
        rng =
      Except.ok
        { success := true
          patternId := "pattern_" ++ domain ++ "_" ++ ts
          recordsGenerated := n
          data := List.replicate n.toNat []
          metadata :=
            { variation := variation
              privacyLevel := privacy.value
              generatedAt := now } } := by
  have hlook : alookup (learnFromData store [] domain ts sqrtA).1
      (learnFromData store [] domain ts sqrtA).2 =
      some { domain := domain, distributions := [], sampleCount := 0 } := by
    rw [learnFromData]
    simp only []
    rw [alookup, if_pos rfl]
    rfl
  refine ⟨rfl, hlook, ?_⟩
  rw [generateFromPattern_found (learnFromData store [] domain ts sqrtA).2
    (learnFromData store [] domain ts sqrtA).1
    { domain := domain, distributions := [], sampleCount := 0 } n variation
    privacy now rng hlook]
  have hconst : exMapM (genRecord rng ([] : List (String × Dist)) variation)
      (List.range n.toNat) =
      Except.ok (List.replicate (List.range n.toNat).length []) :=
    exMapM_const [] (List.range n.toNat)
  rw [hconst]
  simp [Except.map, List.length_range, learnFromData]

/-!  Claim C2: resampling returns exactly the requested number of rows. -/

/-- Field generation succeeds on a well-formed distribution entry whenever
the variation is non-negative. -/
theorem genField_ok (rng : Rng) (variation : ℚ) (hvar : 0 ≤ variation)
    (i : ℕ) (cd : String × Dist) (hwf : distWFb cd.2 = true) :
    ∃ y, genField rng variation i cd = Except.ok y := by
  obtain ⟨c, d⟩ := cd
  cases d with
  | numeric mean std =>
      simp only [distWFb, decide_eq_true_eq] at hwf
      refine ⟨(c, Val.num (mean + std * variation * rng.zDraw i c)), ?_⟩
      rw [genField, npNormal, if_neg (not_lt.mpr (mul_nonneg hwf hvar))]
      rfl
  | categorical freqs =>
      by_cases hemp : freqs.isEmpty
      · exact ⟨(c, Val.txt ("synthetic_" ++ toString i)), by
          rw [genField, if_pos hemp]⟩
      · simp only [distWFb, hemp, Bool.false_or, Bool.and_eq_true,
          List.all_eq_true, decide_eq_true_eq] at hwf
        have hany : freqs.any (fun p => decide (p.2 < 0)) = false := by
          rw [List.any_eq_false]
          intro p hp
          simp [not_lt.mpr (hwf.1 p hp)]
        refine ⟨(c, (freqs.getD (rng.choiceIdx i c % freqs.length)
          (Val.null, 0)).1), ?_⟩
        rw [genField, if_neg (by simp [hemp]), npChoice, if_neg (by simp [hany]),
          if_neg (not_lt.mpr hwf.2)]
        rfl
  | temporal minD maxD => exact ⟨_, rfl⟩
  | other => exact ⟨_, rfl⟩

/-- Row generation succeeds on a well-formed pattern whenever the variation
is non-negative. -/
theorem genRecord_ok (rng : Rng) (variation : ℚ) (hvar : 0 ≤ variation)
    (dists : List (String × Dist))
    (hwf : ∀ cd ∈ dists, distWFb cd.2 = true) (i : ℕ) :
    ∃ rec, genRecord rng dists variation i = Except.ok rec := by
  obtain ⟨rec, hrec, _⟩ := exMapM_total (genField rng variation i) dists
    (fun cd hcd => genField_ok rng variation hvar i cd (hwf cd hcd))
  exact ⟨rec, hrec⟩

/-- Claim C2: for every registered, well-formed pattern and every record
count N > 0, `generate_from_pattern` succeeds with a data list of exactly N
rows and `records_generated` = N, for every randomness oracle and every
non-negative variation.  (Well-formedness — non-negative stds and validated
frequency tables — is what np.random.normal and np.random.choice require;
patterns produced by the learning step satisfy it, see
`learned_pattern_wf`.) -/
theorem c2_resample_exact_rows (store : Store) (pid : String)
    (info : PatternInfo) (hlook : alookup pid store = some info)
    (hwf : patternWFb info = true) (n : ℤ) (hn : 0 < n) (variation : ℚ)
    (hvar : 0 ≤ variation) (privacy : PrivacyLevel) (now : String)
    (rng : Rng) :
    ∃ res, generateFromPattern store pid n variation privacy now rng =
        Except.ok res ∧
      (res.data.length : ℤ) = n ∧ res.recordsGenerated = n := by
  rw [generateFromPattern_found store pid info n variation privacy now rng
    hlook]
  have hwf' : ∀ cd ∈ info.distributions, distWFb cd.2 = true := by
    simpa [patternWFb, List.all_eq_true] using hwf
  obtain ⟨rows, hrows, hlen⟩ :=
    exMapM_total (genRecord rng info.distributions variation)
      (List.range n.toNat)
      (fun i _ => genRecord_ok rng variation hvar info.distributions hwf' i)
  rw [hrows]
  refine ⟨_, rfl, ?_, rfl⟩
  simp only [hlen, List.length_range]
  exact Int.toNat_of_nonneg hn.le

/-- Witness for C2: a store holding one well-formed pattern (a numeric and
a categorical field), record count 3, variation 0.3. -/
theorem c2_resample_exact_rows_witness :
    ∃ res, generateFromPattern
        [("p", { domain := "custom"
                 distributions :=
                   [("x", Dist.numeric 5 1),
                    ("c", Dist.categorical [(Val.txt ("A"), 1)])]
                 sampleCount := 2 })] ("p") 3 (3 / 10) PrivacyLevel.medium
        ("now") rng0 = Except.ok res ∧
      (res.data.length : ℤ) = 3 ∧ res.recordsGenerated = 3 :=
  c2_resample_exact_rows
    [("p", { domain := "custom"
             distributions :=
               [("x", Dist.numeric 5 1),
                ("c", Dist.categorical [(Val.txt ("A"), 1)])]
             sampleCount := 2 })] ("p")
    { domain := "custom"
      distributions :=
        [("x", Dist.numeric 5 1),
         ("c", Dist.categorical [(Val.txt ("A"), 1)])]
      sampleCount := 2 }
    (by rfl) (by with_unfolding_all decide) 3 (by decide) (3 / 10)
    (by with_unfolding_all decide) PrivacyLevel.medium ("now") rng0

/-- Inserting into a count-sorted list is a permutation of consing. -/
theorem insVC_perm (x : Val × ℕ) :
    ∀ l : List (Val × ℕ), List.Perm (insVC x l) (x :: l) := by
  intro l
  induction l with
  | nil => exact List.Perm.refl _
  | cons y ys ih =>
      rw [insVC]
      by_cases h : y.2 ≤ x.2
      · rw [if_pos h]
      · rw [if_neg h]
        exact (List.Perm.cons y ih).trans (List.Perm.swap x y ys)

/-- The count-descending sort is a permutation of its input. -/
theorem sortVC_perm : ∀ l : List (Val × ℕ), List.Perm (sortVC l) l := by
  intro l
  induction l with
  | nil => exact List.Perm.refl _
  | cons x xs ih =>
      rw [sortVC]
      exact (insVC_perm x (sortVC xs)).trans (List.Perm.cons x ih)

/-!  Counting lemmas: the counts of the first-seen-distinct values of a
list sum to its length. -/

theorem mem_dedupAux {α : Type} [DecidableEq α] :
    ∀ (l seen : List α) (x : α), x ∈ dedupAux l seen ↔ x ∈ l ∧ x ∉ seen := by
  intro l
  induction l with
  | nil => intro seen x; simp [dedupAux]
  | cons z zs ih =>
      intro seen x
      by_cases hz : z ∈ seen
      · rw [dedupAux, if_pos hz, ih]
        constructor
        · rintro ⟨h1, h2⟩; exact ⟨List.mem_cons_of_mem z h1, h2⟩
        · rintro ⟨h1, h2⟩
          rcases List.mem_cons.mp h1 with h | h
          · exact absurd (h ▸ hz) h2
          · exact ⟨h, h2⟩
      · rw [dedupAux, if_neg hz]
        constructor
        · intro h
          rcases List.mem_cons.mp h with h | h
          · exact ⟨h ▸ List.mem_cons_self z zs, h ▸ hz⟩
          · obtain ⟨h1, h2⟩ := (ih (z :: seen) x).mp h
            exact ⟨List.mem_cons_of_mem z h1,
              fun hx => h2 (List.mem_cons_of_mem z hx)⟩
        · rintro ⟨h1, h2⟩
          rcases List.mem_cons.mp h1 with h | h
          · exact h ▸ List.mem_cons_self z _
          · by_cases hxz : x = z
            · exact hxz ▸ List.mem_cons_self z _
            · exact List.mem_cons_of_mem z ((ih (z :: seen) x).mpr
                ⟨h, fun hx => (List.mem_cons.mp hx).elim hxz h2⟩)

theorem mem_dedupFS {α : Type} [DecidableEq α] (l : List α) (x : α) :
    x ∈ dedupFS l ↔ x ∈ l := by
  rw [dedupFS, mem_dedupAux]
  simp

theorem cnt_filter_split {α : Type} [DecidableEq α] :
    ∀ (xs : List α) (x : α) (seen : List α), x ∉ seen →
      cnt x xs + (xs.filter (fun v => decide (v ∉ x :: seen))).length =
        (xs.filter (fun v => decide (v ∉ seen))).length := by
  intro xs
  induction xs with
  | nil => intro x seen _; rfl
  | cons y ys ih =>
      intro x seen hx
      by_cases hyx : y = x
      · subst hyx
        rw [List.filter_cons_of_neg (by simp),
          List.filter_cons_of_pos (by simpa using hx)]
        have hc : cnt y (y :: ys) = 1 + cnt y ys := by simp [cnt]
        rw [hc, List.length_cons]
        have := ih y seen hx
        omega
      · have hcnt : cnt x (y :: ys) = cnt x ys := by
          simp [cnt, hyx]
        by_cases hys : y ∈ seen
        · rw [List.filter_cons_of_neg (by simp [hys]),
            List.filter_cons_of_neg (by simp [hys]), hcnt]
          exact ih x seen hx
        · rw [List.filter_cons_of_pos (by simp [List.mem_cons, hys]; exact hyx),
            List.filter_cons_of_pos (by simpa using hys), hcnt,
            List.length_cons, List.length_cons]
          have := ih x seen hx
          omega

theorem sum_cnt_dedupAux {α : Type} [DecidableEq α] :
    ∀ (l seen : List α),
      ((dedupAux l seen).map (fun v => cnt v l)).sum =
        (l.filter (fun v => decide (v ∉ seen))).length := by
  intro l
  induction l with
  | nil => intro seen; rfl
  | cons x xs ih =>
      intro seen
      have hcnt_cons : ∀ v, cnt v (x :: xs) =
          (if x = v then 1 else 0) + cnt v xs := fun v => rfl
      by_cases hx : x ∈ seen
      · rw [dedupAux, if_pos hx]
        have hmap : (dedupAux xs seen).map (fun v => cnt v (x :: xs)) =
            (dedupAux xs seen).map (fun v => cnt v xs) := by
          apply List.map_congr_left
          intro v hv
          have hvs : v ∉ seen := ((mem_dedupAux xs seen v).mp hv).2
          have hvx : x ≠ v := fun h => hvs (h ▸ hx)
          rw [hcnt_cons v, if_neg hvx, Nat.zero_add]
        rw [hmap, ih seen, List.filter_cons_of_neg (by simpa using hx)]
      · rw [dedupAux, if_neg hx]
        simp only [List.map_cons, List.sum_cons]
        have hmap : (dedupAux xs (x :: seen)).map (fun v => cnt v (x :: xs)) =
            (dedupAux xs (x :: seen)).map (fun v => cnt v xs) := by
          apply List.map_congr_left
          intro v hv
          have hvs : v ∉ x :: seen := ((mem_dedupAux xs (x :: seen) v).mp hv).2
          have hvx : x ≠ v := fun h =>
            hvs (h ▸ List.mem_cons_self x seen)
          rw [hcnt_cons v, if_neg hvx, Nat.zero_add]
        rw [hmap, ih (x :: seen), hcnt_cons x, if_pos rfl,
          List.filter_cons_of_pos (by simpa using hx), List.length_cons]
        have := cnt_filter_split xs x seen hx
        omega

theorem sum_cnt_dedupFS {α : Type} [DecidableEq α] (l : List α) :
    ((dedupFS l).map (fun v => cnt v l)).sum = l.length := by
  rw [dedupFS, sum_cnt_dedupAux l []]
  congr 1
  apply List.filter_eq_self.mpr
  intro v _
  simp

/-- Rational form: dividing each count by the length gives a table summing
to exactly 1 on a non-empty list. -/
theorem sum_cnt_div_len {α : Type} [DecidableEq α] (l : List α)
    (hne : l ≠ []) :
    ((dedupFS l).map (fun v => (cnt v l : ℚ) / (l.length : ℚ))).sum = 1 := by
  have hlen0 : l.length ≠ 0 := fun h => hne (List.length_eq_zero.mp h)
  have hlen : (l.length : ℚ) ≠ 0 := Nat.cast_ne_zero.mpr hlen0
  have hcast : ((dedupFS l).map (fun v => (cnt v l : ℚ))).sum =
      ((l.length : ℕ) : ℚ) := by
    rw [show (fun v => (cnt v l : ℚ)) =
        (fun n : ℕ => (n : ℚ)) ∘ (fun v => cnt v l) from rfl,
      ← List.map_map, ← Nat.cast_list_sum, sum_cnt_dedupFS]
  calc ((dedupFS l).map (fun v => (cnt v l : ℚ) / (l.length : ℚ))).sum
      = ((dedupFS l).map (fun v => (cnt v l : ℚ) * ((l.length : ℚ))⁻¹)).sum := by
        simp [div_eq_mul_inv]
    _ = ((dedupFS l).map (fun v => (cnt v l : ℚ))).sum * ((l.length : ℚ))⁻¹ := by
        rw [← List.sum_map_mul_right]
    _ = 1 := by rw [hcast]; exact mul_inv_cancel₀ hlen

/-!  Claim C4: learned categorical frequency tables.  The code
(`_calculate_distributions`, knowledge_loader.py:205-212) divides
value_counts — which drops nulls — by the full row count `len(df)`, so the
table sums to (non-null count)/(row count): exactly 1 only when the column
has no nulls. -/

/-- Counterexample to claim C4 as stated: learning from the two rows
[{"c": "A"}, {"c": null}] stores the categorical table {"A": 1/2}, whose
values sum to 1/2, not 1 within 1e-6. -/
theorem c4_counterexample :
    alookup ("c")
        (calculateDistributions
          [[("c", Val.txt ("A"))], [("c", Val.null)]]) =
      some (LoadedDist.categorical
        { frequencies := [(Val.txt ("A"), 1 / 2)]
          mode := some (Val.txt ("A")) }) ∧
    ¬ (|((([(Val.txt ("A"), (1 : ℚ) / 2)].map Prod.snd).sum) - 1)| ≤
        1 / 1000000) := by
  constructor
  · with_unfolding_all decide
  · with_unfolding_all decide

/-- Claim C4, amended: for every learned categorical field whose column has
no null values (and at least one row), the frequency-table values sum to
exactly 1, in particular to 1 within 1e-6.  (With nulls present the sum is
(non-null count)/(row count) < 1.) -/
theorem c4_freq_sum (rows : List Rec) (c : String) (d : CatDist)
    (hmem : (c, LoadedDist.categorical d) ∈ calculateDistributions rows)
    (hnn : ∀ v ∈ colValues rows c, v ≠ Val.null)
    (hne : rows ≠ []) :
    |((d.frequencies.map Prod.snd).sum) - 1| ≤ 1 / 1000000 := by
  have hd : d = catStats rows.length (colValues rows c) := by
    rcases List.mem_append.mp hmem with h | h
    · obtain ⟨c', _, hc'⟩ := List.mem_map.mp h
      cases hc'
    · obtain ⟨c', _, hc'⟩ := List.mem_map.mp h
      injection hc' with h1 h2
      subst h1
      injection h2 with h3
      exact h3.symm
  subst hd
  have hcol : nonNull (colValues rows c) = colValues rows c :=
    List.filter_eq_self.mpr (fun v hv => by simpa using hnn v hv)
  have hlen : (colValues rows c).length = rows.length := by
    simp [colValues]
  have hcne : colValues rows c ≠ [] := by
    intro h
    exact hne (by simpa [h, List.length_eq_zero] using hlen.symm)
  have hsum :
      (((catStats rows.length (colValues rows c)).frequencies.map
        Prod.snd).sum) = 1 := by
    show (((vcounts (colValues rows c)).map
      (fun p => (p.1, (p.2 : ℚ) / (rows.length : ℚ)))).map Prod.snd).sum = 1
    rw [List.map_map, vcounts]
    have hperm := List.Perm.map
      (Prod.snd ∘ fun p : Val × ℕ => (p.1, (p.2 : ℚ) / (rows.length : ℚ)))
      (sortVC_perm ((dedupFS (nonNull (colValues rows c))).map
        (fun v => (v, cnt v (nonNull (colValues rows c))))))
    rw [List.Perm.sum_eq hperm, List.map_map]
    show ((dedupFS (nonNull (colValues rows c))).map
      (fun v => ((cnt v (nonNull (colValues rows c)) : ℚ) /
        (rows.length : ℚ)))).sum = 1
    rw [hcol, ← hlen]
    exact sum_cnt_div_len (colValues rows c) hcne
  rw [hsum]
  norm_num

/-- Witness for C4 (amended): learning from [{"c": "A"}, {"c": "B"}] gives
the table {"A": 1/2, "B": 1/2}, summing to 1. -/
theorem c4_freq_sum_witness :
    |(((((catStats 2 [Val.txt ("A"), Val.txt ("B")]).frequencies).map
        Prod.snd).sum) - 1)| ≤ 1 / 1000000 :=
  c4_freq_sum [[("c", Val.txt ("A"))], [("c", Val.txt ("B"))]] ("c")
    (catStats 2 [Val.txt ("A"), Val.txt ("B")])
    (by with_unfolding_all decide)
    (by with_unfolding_all decide)
    (by decide)

/-!  Claim C5: learned numeric parameters.  The code stores pandas'
default ddof = 1 SAMPLE standard deviation (knowledge_loader.py:200), not
the population standard deviation the specification names, and on a single
value it stores NaN, which is not ≥ 0. -/

theorem foldl_min_le_init (xs : List ℚ) : ∀ a : ℚ, xs.foldl min a ≤ a := by
  induction xs with
  | nil => intro a; exact le_refl a
  | cons x xs ih =>
      intro a
      exact le_trans (ih (min a x)) (min_le_left a x)

theorem foldl_min_le_mem (xs : List ℚ) :
    ∀ (a x : ℚ), x ∈ xs → xs.foldl min a ≤ x := by
  induction xs with
  | nil => intro a x hx; cases hx
  | cons y ys ih =>
      intro a x hx
      rcases List.mem_cons.mp hx with h | h
      · subst h
        exact le_trans (foldl_min_le_init ys (min a x)) (min_le_right a x)
      · exact ih (min a y) x h

theorem init_le_foldl_max (xs : List ℚ) : ∀ a : ℚ, a ≤ xs.foldl max a := by
  induction xs with
  | nil => intro a; exact le_refl a
  | cons x xs ih =>
      intro a
      exact le_trans (le_max_left a x) (ih (max a x))

theorem mem_le_foldl_max (xs : List ℚ) :
    ∀ (a x : ℚ), x ∈ xs → x ≤ xs.foldl max a := by
  induction xs with
  | nil => intro a x hx; cases hx
  | cons y ys ih =>
      intro a x hx
      rcases List.mem_cons.mp hx with h | h
      · subst h
        exact le_trans (le_max_right a x) (init_le_foldl_max ys (max a x))
      · exact ih (max a y) x h

theorem listMin_le (l : List ℚ) (x : ℚ) (hx : x ∈ l) : listMin l ≤ x := by
  cases l with
  | nil => cases hx
  | cons y ys =>
      rcases List.mem_cons.mp hx with h | h
      · subst h; exact foldl_min_le_init ys x
      · exact foldl_min_le_mem ys y x h

theorem le_listMax (l : List ℚ) (x : ℚ) (hx : x ∈ l) : x ≤ listMax l := by
  cases l with
  | nil => cases hx
  | cons y ys =>
      rcases List.mem_cons.mp hx with h | h
      · subst h; exact init_le_foldl_max ys x
      · exact mem_le_foldl_max ys y x h

theorem mul_len_le_sum (l : List ℚ) (m : ℚ) (h : ∀ x ∈ l, m ≤ x) :
    (l.length : ℚ) * m ≤ l.sum := by
  induction l with
  | nil => simp
  | cons x xs ih =>
      have h1 : m ≤ x := h x (List.mem_cons_self x xs)
      have h2 := ih (fun y hy => h y (List.mem_cons_of_mem x hy))
      simp only [List.length_cons, List.sum_cons, Nat.cast_succ]
      nlinarith

theorem sum_le_mul_len (l : List ℚ) (m : ℚ) (h : ∀ x ∈ l, x ≤ m) :
    l.sum ≤ (l.length : ℚ) * m := by
  induction l with
  | nil => simp
  | cons x xs ih =>
      have h1 : x ≤ m := h x (List.mem_cons_self x xs)
      have h2 := ih (fun y hy => h y (List.mem_cons_of_mem x hy))
      simp only [List.length_cons, List.sum_cons, Nat.cast_succ]
      nlinarith

theorem listMin_le_mean (l : List ℚ) (hne : l ≠ []) :
    listMin l ≤ listMean l := by
  have hlen0 : l.length ≠ 0 := fun h => hne (List.length_eq_zero.mp h)
  have hlen : (0 : ℚ) < (l.length : ℚ) := by
    exact_mod_cast Nat.pos_of_ne_zero hlen0
  rw [listMean, le_div_iff₀ hlen, mul_comm]
  exact mul_len_le_sum l (listMin l) (fun x hx => listMin_le l x hx)

theorem mean_le_listMax (l : List ℚ) (hne : l ≠ []) :
    listMean l ≤ listMax l := by
  have hlen0 : l.length ≠ 0 := fun h => hne (List.length_eq_zero.mp h)
  have hlen : (0 : ℚ) < (l.length : ℚ) := by
    exact_mod_cast Nat.pos_of_ne_zero hlen0
  rw [listMean, div_le_iff₀ hlen, mul_comm]
  exact sum_le_mul_len l (listMax l) (fun x hx => le_listMax l x hx)

/-- A numeric-dtype column has at least one numeric value. -/
theorem numsOf_ne_nil (col : List Val) (hdt : isNumericDtype col = true) :
    numsOf col ≠ [] := by
  rw [isNumericDtype, Bool.and_eq_true, List.any_eq_true] at hdt
  obtain ⟨⟨v, hv, hnum⟩, _⟩ := hdt
  cases v with
  | num q =>
      intro h
      have hq : q ∈ numsOf col := by
        rw [numsOf]
        exact List.mem_filterMap.mpr ⟨Val.num q, hv, rfl⟩
      rw [h] at hq
      cases hq
  | null => cases hnum
  | txt s => cases hnum

/-- The sample variance, when defined, is non-negative. -/
theorem sampleVar_nonneg (l : List ℚ) (h2 : 2 ≤ l.length) :
    ∃ w, sampleVar l = some w ∧ 0 ≤ w := by
  rw [sampleVar, if_pos h2]
  refine ⟨_, rfl, ?_⟩
  apply div_nonneg
  · apply List.sum_nonneg
    intro x hx
    obtain ⟨y, _, hy⟩ := List.mem_map.mp hx
    exact hy ▸ sq_nonneg _
  · have : (2 : ℚ) ≤ (l.length : ℚ) := by exact_mod_cast h2
    linarith

/-- Counterexample to claim C5 as stated.  First input: two rows
[{"x": 0}, {"x": 1}].  The stored std is pandas `.std()` with ddof = 1: its
square (`varS`) is 1/2, while the population variance is 1/4; since both
are non-negative and square roots are injective on non-negatives, the
stored std √(1/2) is NOT the population standard deviation √(1/4) = 1/2.
Second input: one row [{"x": 5}].  The stored std is NaN (`varS` = none),
so "std ≥ 0" fails as well. -/
theorem c5_counterexample :
    (alookup ("x")
        (calculateDistributions [[("x", Val.num 0)], [("x", Val.num 1)]]) =
      some (LoadedDist.numeric (numStats [0, 1])) ∧
      (numStats [0, 1]).varS = some (1 / 2) ∧
      popVar [0, 1] = 1 / 4 ∧ ((1 : ℚ) / 2) ≠ 1 / 4) ∧
    (alookup ("x")
        (calculateDistributions [[("x", Val.num 5)]]) =
      some (LoadedDist.numeric (numStats [5])) ∧
      (numStats [5]).varS = none) := by
  constructor
  · refine ⟨?_, ?_, ?_, ?_⟩
    · with_unfolding_all decide
    · with_unfolding_all decide
    · with_unfolding_all decide
    · with_unfolding_all decide
  · constructor
    · with_unfolding_all decide
    · with_unfolding_all decide

/-- Claim C5, amended: for every learned numeric field, the stored range
and mean satisfy min ≤ mean ≤ max; the stored std is the ddof = 1 SAMPLE
standard deviation (not the population one): its square `varS` is defined
and ≥ 0 exactly when the field has at least two non-null values, and NaN
(none) on fewer. -/
theorem c5_numeric_stats (rows : List Rec) (c : String) (d : NumDist)
    (p : NumPattern) (skewO kurtO : List ℚ → ℚ)
    (hmem : (c, LoadedDist.numeric d) ∈ calculateDistributions rows)
    (hpat : (c, ColPattern.numeric p) ∈ analyzePatterns skewO kurtO rows) :
    p.rangeMin ≤ d.mean ∧ d.mean ≤ p.rangeMax ∧
    (2 ≤ (numsOf (colValues rows c)).length → ∃ w, d.varS = some w ∧ 0 ≤ w) ∧
    ((numsOf (colValues rows c)).length < 2 → d.varS = none) := by
  have hdc : isNumericDtype (colValues rows c) = true ∧
      d = numStats (numsOf (colValues rows c)) := by
    rcases List.mem_append.mp hmem with h | h
    · obtain ⟨c', hc'mem, hc'⟩ := List.mem_map.mp h
      injection hc' with h1 h2
      subst h1
      injection h2 with h3
      exact ⟨(List.mem_filter.mp hc'mem).2, h3.symm⟩
    · obtain ⟨c', _, hc'⟩ := List.mem_map.mp h
      cases hc'
  obtain ⟨hdt, hd⟩ := hdc
  have hp : p = { rangeMin := listMin (numsOf (colValues rows c))
                  rangeMax := listMax (numsOf (colValues rows c))
                  distribution := detectDistribution
                    (skewO (numsOf (colValues rows c)))
                    (kurtO (numsOf (colValues rows c))) } := by
    rw [analyzePatterns] at hpat
    obtain ⟨c', _, hc'⟩ := List.mem_map.mp hpat
    by_cases hdt' : isNumericDtype (colValues rows c') = true
    · rw [if_pos hdt'] at hc'
      injection hc' with h1 h2
      subst h1
      injection h2 with h3
      exact h3.symm
    · rw [if_neg hdt'] at hc'
      injection hc' with h1 h2
      subst h1
      injection h2
  subst hd
  subst hp
  refine ⟨?_, ?_, ?_, ?_⟩
  · exact listMin_le_mean (numsOf (colValues rows c))
      (numsOf_ne_nil (colValues rows c) hdt)
  · exact mean_le_listMax (numsOf (colValues rows c))
      (numsOf_ne_nil (colValues rows c) hdt)
  · intro h2
    exact sampleVar_nonneg (numsOf (colValues rows c)) h2
  · intro hlt
    show sampleVar (numsOf (colValues rows c)) = none
    rw [sampleVar, if_neg (not_le.mpr hlt)]

/-- Witness for C5 (amended): learning from [{"x": 0}, {"x": 2}] gives
range [0, 2], mean 1 and a defined, non-negative squared sample std. -/
theorem c5_numeric_stats_witness :
    (0 : ℚ) ≤ 1 ∧
    ({ rangeMin := (0 : ℚ), rangeMax := (2 : ℚ),
       distribution := "normal" } : NumPattern).rangeMin ≤
        (numStats [0, 2]).mean ∧
      (numStats [0, 2]).mean ≤
        ({ rangeMin := (0 : ℚ), rangeMax := (2 : ℚ),
           distribution := "normal" } : NumPattern).rangeMax ∧
      (2 ≤ (numsOf (colValues [[("x", Val.num 0)], [("x", Val.num 2)]]
          ("x"))).length →
        ∃ w, (numStats [0, 2]).varS = some w ∧ 0 ≤ w) ∧
      ((numsOf (colValues [[("x", Val.num 0)], [("x", Val.num 2)]]
          ("x"))).length < 2 →
        (numStats [0, 2]).varS = none) := by
  constructor
  · norm_num
  · have h := c5_numeric_stats [[("x", Val.num 0)], [("x", Val.num 2)]] ("x")
      (numStats [0, 2])
      { rangeMin := (0 : ℚ), rangeMax := (2 : ℚ), distribution := "normal" }
      (fun _ => 0) (fun _ => 0)
      (by with_unfolding_all decide)
      (by with_unfolding_all decide)
    exact h

/-!  Claim C6: functional-dependency discovery.  The code's test is
`groupby(A)[B].nunique().max() == 1`: rows with a null A value are dropped
from the grouping, nunique counts only distinct non-null B values, and the
max must EQUAL 1 — so a group whose B values are all null (nunique 0)
counts as satisfying nothing, and when no group reaches 1 the dependency
is not reported even though every group has at most one distinct B
value. -/

theorem init_le_foldl_max_nat (xs : List ℕ) :
    ∀ a : ℕ, a ≤ xs.foldl max a := by
  induction xs with
  | nil => intro a; exact le_refl a
  | cons x xs ih =>
      intro a
      exact le_trans (le_max_left a x) (ih (max a x))

theorem mem_le_foldl_max_nat (xs : List ℕ) :
    ∀ (a x : ℕ), x ∈ xs → x ≤ xs.foldl max a := by
  induction xs with
  | nil => intro a x hx; cases hx
  | cons y ys ih =>
      intro a x hx
      rcases List.mem_cons.mp hx with h | h
      · subst h
        exact le_trans (le_max_right a x) (init_le_foldl_max_nat ys (max a x))
      · exact ih (max a y) x h

theorem foldl_max_nat_choice (xs : List ℕ) :
    ∀ a : ℕ, xs.foldl max a = a ∨ xs.foldl max a ∈ xs := by
  induction xs with
  | nil => intro a; exact Or.inl rfl
  | cons y ys ih =>
      intro a
      rcases ih (max a y) with h | h
      · rcases max_choice a y with h' | h'
        · exact Or.inl (by rw [List.foldl_cons, h, h'])
        · exact Or.inr (by rw [List.foldl_cons, h, h']; exact
            List.mem_cons_self y ys)
      · exact Or.inr (List.mem_cons_of_mem y h)

/-- The aggregate max equals 1 exactly when the list is non-empty, bounded
by 1, and attains 1. -/
theorem maxN?_eq_one (l : List ℕ) :
    maxN? l = some 1 ↔ l ≠ [] ∧ (∀ x ∈ l, x ≤ 1) ∧ 1 ∈ l := by
  cases l with
  | nil => simp [maxN?]
  | cons x xs =>
      rw [maxN?, Option.some_inj]
      constructor
      · intro h
        refine ⟨List.cons_ne_nil x xs, ?_, ?_⟩
        · intro y hy
          rcases List.mem_cons.mp hy with h' | h'
          · exact h' ▸ (h ▸ init_le_foldl_max_nat xs x)
          · exact h ▸ mem_le_foldl_max_nat xs x y h'
        · rcases foldl_max_nat_choice xs x with h' | h'
          · rw [h] at h'
            exact h' ▸ List.mem_cons_self x xs
          · rw [h] at h'
            exact List.mem_cons_of_mem x h'
      · rintro ⟨_, hall, hone⟩
        apply le_antisymm
        · rcases foldl_max_nat_choice xs x with h' | h'
          · rw [h']; exact hall x (List.mem_cons_self x xs)
          · exact hall _ (List.mem_cons_of_mem x h')
        · rcases List.mem_cons.mp hone with h' | h'
          · exact h' ▸ init_le_foldl_max_nat xs x
          · exact mem_le_foldl_max_nat xs x 1 h'

/-- Characterization of the code's functional-dependency test. -/
theorem fdCode_iff (a b : List Val) :
    fdCode a b = true ↔
      dedupFS (nonNull a) ≠ [] ∧
      (∀ k ∈ dedupFS (nonNull a), nuniqueGrp a b k ≤ 1) ∧
      (∃ k ∈ dedupFS (nonNull a), nuniqueGrp a b k = 1) := by
  rw [fdCode, beq_iff_eq, maxN?_eq_one]
  constructor
  · rintro ⟨hne, hall, hone⟩
    refine ⟨fun h => hne (by rw [h]; rfl), ?_, ?_⟩
    · intro k hk
      exact hall _ (List.mem_map.mpr ⟨k, hk, rfl⟩)
    · obtain ⟨k, hk, hk1⟩ := List.mem_map.mp hone
      exact ⟨k, hk, hk1⟩
  · rintro ⟨hne, hall, k, hk, hk1⟩
    refine ⟨?_, ?_, ?_⟩
    · intro h
      exact hne (List.map_eq_nil_iff.mp h)
    · intro x hx
      obtain ⟨k', hk', hk'x⟩ := List.mem_map.mp hx
      exact hk'x ▸ hall k' hk'
    · exact List.mem_map.mpr ⟨k, hk, hk1⟩

/-- Membership in the reported dependency pairs. -/
theorem mem_dependencies (rows : List Rec) (A B : String) :
    (A, B) ∈ dependencies rows ↔
      A ∈ colNames rows ∧ B ∈ colNames rows ∧ A ≠ B ∧
        fdCode (colValues rows A) (colValues rows B) = true := by
  rw [dependencies]
  simp only [List.mem_flatMap, List.mem_filterMap]
  constructor
  · rintro ⟨c1, hc1, c2, hc2, hif⟩
    by_cases hcond : c1 ≠ c2 ∧
        fdCode (colValues rows c1) (colValues rows c2) = true
    · rw [if_pos hcond] at hif
      injection hif with hpair
      cases hpair
      exact ⟨hc1, hc2, hcond.1, hcond.2⟩
    · rw [if_neg hcond] at hif
      cases hif
  · rintro ⟨hA, hB, hne, hfd⟩
    exact ⟨A, hA, B, hB, by rw [if_pos ⟨hne, hfd⟩]⟩

/-- Counterexample to claim C6 as stated: on the single row
[{"A": "x", "B": null}], grouping by A yields one group whose B values are
{null} — at most one distinct value — so the claimed iff demands that A be
reported as determining B; but nunique counts no non-null value, the
aggregate max is 0 ≠ 1, and the code reports nothing. -/
theorem c6_counterexample :
    ("A") ∈ colNames [[("A", Val.txt ("x")), ("B", Val.null)]] ∧
    ("B") ∈ colNames [[("A", Val.txt ("x")), ("B", Val.null)]] ∧
    ("A" : String) ≠ "B" ∧
    specDetermines
        (colValues [[("A", Val.txt ("x")), ("B", Val.null)]] ("A"))
        (colValues [[("A", Val.txt ("x")), ("B", Val.null)]] ("B")) = true ∧
    ("A", "B") ∉ dependencies [[("A", Val.txt ("x")), ("B", Val.null)]] := by
  refine ⟨by decide, by decide, by decide, by decide, by decide⟩

/-- Claim C6, amended: for every record set and ordered pair of fields
(A, B), the code reports A as determining B iff A and B are distinct
fields, grouping by the NON-NULL values of A yields at least one group,
every such group holds at most one distinct non-null value of B, and at
least one group holds exactly one.  In particular, on
[{"A":"x","B":1},{"A":"x","B":1},{"A":"y","B":2}] it reports "A" as
determining "B". -/
theorem c6_fd_characterization :
    (∀ (rows : List Rec) (A B : String),
      ((A, B) ∈ dependencies rows ↔
        A ∈ colNames rows ∧ B ∈ colNames rows ∧ A ≠ B ∧
          dedupFS (nonNull (colValues rows A)) ≠ [] ∧
          (∀ k ∈ dedupFS (nonNull (colValues rows A)),
            nuniqueGrp (colValues rows A) (colValues rows B) k ≤ 1) ∧
          (∃ k ∈ dedupFS (nonNull (colValues rows A)),
            nuniqueGrp (colValues rows A) (colValues rows B) k = 1))) ∧
    ("A", "B") ∈ dependencies
      [[("A", Val.txt ("x")), ("B", Val.num 1)],
       [("A", Val.txt ("x")), ("B", Val.num 1)],
       [("A", Val.txt ("y")), ("B", Val.num 2)]] := by
  constructor
  · intro rows A B
    rw [mem_dependencies, fdCode_iff]
  · decide

/-!  Claim C3: round-trip of a constant numeric field at variation 0. -/

/-- The spec-modelled categorical table sums to exactly 1. -/
theorem specCatTable_snd_sum (col : List Val) :
    (((specCatTable col).map Prod.snd).sum) = 1 := by
  rw [specCatTable]
  by_cases hemp : (nonNull col).isEmpty = true
  · rw [if_pos hemp]; norm_num
  · rw [if_neg hemp, List.map_map]
    have hne : nonNull col ≠ [] := by
      intro h'
      rw [h'] at hemp
      exact hemp rfl
    show ((dedupFS (nonNull col)).map
      (fun v => (cnt v (nonNull col) : ℚ) / ((nonNull col).length : ℚ))).sum = 1
    exact sum_cnt_div_len (nonNull col) hne

/-- The spec-modelled categorical table is a valid probability vector for
np.random.choice. -/
theorem specCatTable_wf (col : List Val) :
    distWFb (Dist.categorical (specCatTable col)) = true := by
  rw [distWFb, Bool.or_eq_true, Bool.and_eq_true]
  right
  constructor
  · rw [List.all_eq_true]
    intro p hp
    rw [decide_eq_true_eq]
    rw [specCatTable] at hp
    by_cases hemp : (nonNull col).isEmpty = true
    · rw [if_pos hemp] at hp
      rcases List.mem_cons.mp hp with h | h
      · rw [h]; norm_num
      · cases h
    · rw [if_neg hemp] at hp
      obtain ⟨w, _, hw⟩ := List.mem_map.mp hp
      rw [← hw]
      exact div_nonneg (Nat.cast_nonneg _) (Nat.cast_nonneg _)
  · rw [decide_eq_true_eq, specCatTable_snd_sum]
    rw [sub_self, abs_zero, npChoiceAtol]
    norm_num

/-- At variation 0 a numeric field deterministically reproduces the learned
mean: np.random.normal(mean, std·0) = mean. -/
theorem genField_numeric_var0 (rng : Rng) (i : ℕ) (c : String)
    (mean std : ℚ) :
    genField rng 0 i (c, Dist.numeric mean std) =
      Except.ok (c, Val.num mean) := by
  rw [genField, npNormal, mul_zero, if_neg (lt_irrefl 0)]
  simp [Except.map]

/-- Every field of a spec-modelled summary generates successfully at
variation 0 (numeric scales collapse to 0; categorical tables are valid). -/
theorem genField_summary_var0_ok (rng : Rng) (i : ℕ) (sqrtA : ℚ → ℚ)
    (rows : List Rec) (cd : String × Dist)
    (hmem : cd ∈ generatePatternSummary sqrtA rows) :
    ∃ y, genField rng 0 i cd = Except.ok y := by
  rw [generatePatternSummary] at hmem
  obtain ⟨c, _, hcd⟩ := List.mem_map.mp hmem
  subst hcd
  rw [specFieldDist]
  by_cases hdt : isNumericDtype (colValues rows c) = true
  · rw [if_pos hdt]
    exact ⟨_, genField_numeric_var0 rng i c _ _⟩
  · rw [if_neg hdt]
    exact genField_ok rng 0 le_rfl i
      (c, Dist.categorical (specCatTable (colValues rows c)))
      (specCatTable_wf (colValues rows c))

/-- `genField` preserves the column name of the entry it generates. -/
theorem genField_key (rng : Rng) (variation : ℚ) (i : ℕ) :
    ∀ (cd : String × Dist) (y : String × Val),
      genField rng variation i cd = Except.ok y → y.1 = cd.1 := by
  rintro ⟨c, d⟩ y h
  cases d with
  | numeric mean std =>
      rw [genField] at h
      cases hn : npNormal rng i c mean (std * variation) with
      | error e => rw [hn] at h; cases h
      | ok q =>
          rw [hn] at h
          injection h with h'
          rw [← h']
  | categorical freqs =>
      rw [genField] at h
      by_cases hemp : freqs.isEmpty = true
      · rw [if_pos hemp] at h
        injection h with h'
        rw [← h']
      · rw [if_neg hemp] at h
        cases hc : npChoice rng i c freqs with
        | error e => rw [hc] at h; cases h
        | ok w =>
            rw [hc] at h
            injection h with h'
            rw [← h']
  | temporal minD maxD =>
      rw [genField] at h
      injection h with h'
      rw [← h']
  | other =>
      rw [genField] at h
      injection h with h'
      rw [← h']

theorem alookup_some_mem_keys {α : Type} :
    ∀ (r : List (String × α)) (k : String) (x : α),
      alookup k r = some x → k ∈ r.map Prod.fst := by
  intro r
  induction r with
  | nil => intro k x h; cases h
  | cons p ps ih =>
      intro k x h
      obtain ⟨a, b⟩ := p
      rw [alookup] at h
      by_cases hp : a = k
      · exact List.mem_map.mpr ⟨(a, b), List.mem_cons_self _ ps, hp⟩
      · rw [if_neg hp] at h
        exact List.mem_cons_of_mem _ (ih k x h)

/-- A field present in some row is a column of the record set. -/
theorem field_mem_colNames (rows : List Rec) (field : String) (r : Rec)
    (hr : r ∈ rows) (x : Val) (hx : alookup field r = some x) :
    field ∈ colNames rows := by
  rw [colNames, mem_dedupFS, List.mem_flatten]
  exact ⟨r.map Prod.fst, List.mem_map.mpr ⟨r, hr, rfl⟩,
    alookup_some_mem_keys r field x hx⟩

/-- A field holding the same numeric value in every row yields a constant
column. -/
theorem colValues_const (rows : List Rec) (field : String) (v : ℚ)
    (hconst : ∀ r ∈ rows, alookup field r = some (Val.num v)) :
    colValues rows field = List.replicate rows.length (Val.num v) := by
  rw [colValues, List.eq_replicate_iff]
  constructor
  · simp
  · intro b hb
    obtain ⟨r, hr, hrb⟩ := List.mem_map.mp hb
    rw [← hrb, hconst r hr]
    rfl

theorem numsOf_replicate (n : ℕ) (v : ℚ) :
    numsOf (List.replicate n (Val.num v)) = List.replicate n v := by
  induction n with
  | zero => rfl
  | succ m ih =>
      rw [List.replicate_succ, List.replicate_succ, ← ih]
      rfl

theorem listMean_replicate (n : ℕ) (v : ℚ) (hn : n ≠ 0) :
    listMean (List.replicate n v) = v := by
  rw [listMean, List.sum_replicate, List.length_replicate, nsmul_eq_mul]
  exact mul_div_cancel_left₀ v (Nat.cast_ne_zero.mpr hn)

theorem isNumericDtype_replicate_num (n : ℕ) (v : ℚ) (hn : n ≠ 0) :
    isNumericDtype (List.replicate n (Val.num v)) = true := by
  rw [isNumericDtype, Bool.and_eq_true]
  constructor
  · rw [List.any_eq_true]
    exact ⟨Val.num v, List.mem_replicate.mpr ⟨hn, rfl⟩, rfl⟩
  · rw [List.all_eq_true]
    intro x hx
    rw [(List.mem_replicate.mp hx).2]
    rfl

/-- The spec-modelled summary learns a constant numeric field as a numeric
distribution whose mean is the constant. -/
theorem summary_at_const_field (sqrtA : ℚ → ℚ) (rows : List Rec)
    (field : String) (v : ℚ) (hne : rows ≠ [])
    (hconst : ∀ r ∈ rows, alookup field r = some (Val.num v)) :
    alookup field (generatePatternSummary sqrtA rows) =
      some (Dist.numeric v
        (sqrtA (popVar (List.replicate rows.length v)))) := by
  have hlen0 : rows.length ≠ 0 := fun h => hne (List.length_eq_zero.mp h)
  have hmemcol : field ∈ colNames rows := by
    cases rows with
    | nil => exact absurd rfl hne
    | cons r rest =>
        exact field_mem_colNames (r :: rest) field r
          (List.mem_cons_self r rest) (Val.num v)
          (hconst r (List.mem_cons_self r rest))
  rw [generatePatternSummary, alookup_tabulate (specFieldDist sqrtA rows),
    if_pos hmemcol, specFieldDist, colValues_const rows field v hconst,
    if_pos (isNumericDtype_replicate_num rows.length v hlen0),
    numsOf_replicate, listMean_replicate rows.length v hlen0]

/-- Claim C3 (spec-modelled learning step): learning from a record set in
which some numeric field holds the same value v in every row, then
resampling any number of rows with variation 0, yields a batch in which
that field equals v in every generated row — for every randomness oracle
and every float-sqrt realization.  The std · variation scale is 0, so the
normal draw collapses deterministically to the learned mean v. -/
theorem c3_roundtrip_constant_field (store : Store) (rows : List Rec)
    (field : String) (v : ℚ) (domain ts : String) (sqrtA : ℚ → ℚ)
    (n : ℤ) (privacy : PrivacyLevel) (now : String) (rng : Rng)
    (hne : rows ≠ [])
    (hconst : ∀ r ∈ rows, alookup field r = some (Val.num v)) :
    ∃ res, generateFromPattern (learnFromData store rows domain ts sqrtA).2
        (learnFromData store rows domain ts sqrtA).1 n 0 privacy now rng =
        Except.ok res ∧
      res.data.length = n.toNat ∧
      ∀ rec ∈ res.data, alookup field rec = some (Val.num v) := by
  have hlook : alookup (learnFromData store rows domain ts sqrtA).1
      (learnFromData store rows domain ts sqrtA).2 =
      some { domain := domain
             distributions := generatePatternSummary sqrtA rows
             sampleCount := rows.length } := by
    rw [learnFromData]
    simp only []
    rw [alookup, if_pos rfl]
  rw [generateFromPattern_found _ _ _ _ _ _ _ _ hlook]
  obtain ⟨batch, hbatch, hblen⟩ :=
    exMapM_total (genRecord rng (generatePatternSummary sqrtA rows) 0)
      (List.range n.toNat)
      (fun i _ =>
        exMapM_total (genField rng 0 i) (generatePatternSummary sqrtA rows)
          (fun cd hcd => genField_summary_var0_ok rng i sqrtA rows cd hcd)
          |>.imp (fun rec h => h.1))
  rw [hbatch]
  refine ⟨_, rfl, ?_, ?_⟩
  · show batch.length = n.toNat
    rw [hblen, List.length_range]
  · intro rec hrec
    obtain ⟨i, _, hgen⟩ :=
      exMapM_mem (genRecord rng (generatePatternSummary sqrtA rows) 0)
        (List.range n.toNat) batch hbatch rec hrec
    obtain ⟨y, hfy, hlooked⟩ :=
      exMapM_alookup (genField rng 0 i) (generatePatternSummary sqrtA rows)
        rec (genField_key rng 0 i) hgen field
        (Dist.numeric v (sqrtA (popVar (List.replicate rows.length v))))
        (summary_at_const_field sqrtA rows field v hne hconst)
    rw [genField_numeric_var0 rng i field v
      (sqrtA (popVar (List.replicate rows.length v)))] at hfy
    injection hfy with h'
    injection h' with h1 h2
    rw [hlooked, ← h2]

/-- Witness for C3: two rows with x = 5; resampling 2 rows at variation 0
yields x = 5 in every generated row. -/
theorem c3_roundtrip_constant_field_witness :
    ∃ res, generateFromPattern
        (learnFromData [] [[("x", Val.num 5)], [("x", Val.num 5)]]
          ("custom") ("20240101000000") (fun _ => 0)).2
        (learnFromData [] [[("x", Val.num 5)], [("x", Val.num 5)]]
          ("custom") ("20240101000000") (fun _ => 0)).1 2 0
        PrivacyLevel.medium ("now") rng0 = Except.ok res ∧
      res.data.length = (2 : ℤ).toNat ∧
      ∀ rec ∈ res.data, alookup ("x") rec = some (Val.num 5) :=
  c3_roundtrip_constant_field [] [[("x", Val.num 5)], [("x", Val.num 5)]]
    ("x") 5 ("custom") ("20240101000000") (fun _ => 0) 2
    PrivacyLevel.medium ("now") rng0 (by decide) (by decide)

/-- Patterns stored by the learning step are well-formed in the sense
required by `c2_resample_exact_rows`, for every non-negative realization
of the float square root: numeric stds are ≥ 0 and categorical tables are
valid probability vectors. -/
theorem learned_pattern_wf (store : Store) (rows : List Rec)
    (domain ts : String) (sqrtA : ℚ → ℚ) (hsq : ∀ q, 0 ≤ sqrtA q)
    (info : PatternInfo)
    (h : alookup (learnFromData store rows domain ts sqrtA).1
        (learnFromData store rows domain ts sqrtA).2 = some info) :
    patternWFb info = true := by
  rw [learnFromData] at h
  simp only [] at h
  rw [alookup, if_pos rfl] at h
  injection h with h'
  subst h'
  rw [patternWFb]
  simp only []
  rw [List.all_eq_true]
  intro cd hcd
  rw [generatePatternSummary] at hcd
  obtain ⟨c, _, hc⟩ := List.mem_map.mp hcd
  subst hc
  rw [specFieldDist]
  by_cases hdt : isNumericDtype (colValues rows c) = true
  · rw [if_pos hdt, distWFb]
    exact decide_eq_true (hsq _)
  · rw [if_neg hdt]
    exact specCatTable_wf _

/-!  Validation of the MD5 model against the reference digests of RFC 1321
and hashlib. -/

theorem md5_vector_empty :
    md5hex (strBytes ("")) = "d41d8cd98f00b204e9800998ecf8427e" := by decide

theorem md5_vector_a :
    md5hex (strBytes ("a")) = "0cc175b9c0f1b6a831c399e269772661" := by decide

theorem md5_vector_abc :
    md5hex (strBytes ("abc")) = "900150983cd24fb0d6963f7d28e17f72" := by
  decide

/-!  Claim C9: the anonymization frame property. -/

/-- Claim C9: whenever `_anonymize_data` returns, the output frame has one
column per input column, and every column whose name is not listed in the
report's detected_columns is value-for-value identical (same name, same
cell list, same position) to the input column.  The operation is a pure
function of the input frame (the code rewrites only a `df.copy()`), so the
caller's frame is untouched. -/
theorem c9_frame (numRepr : ℚ → String) (cols : Cols)
    (out : Cols × PiiReport)
    (hok : anonymizeData numRepr cols = Except.ok out) :
    out.1.length = cols.length ∧
    ∀ (i : ℕ) (nc : String × List Val), cols[i]? = some nc →
      nc.1 ∉ out.2.detectedColumns → out.1[i]? = some nc := by
  rw [anonymizeData] at hok
  cases hproc : exMapM (anonStep numRepr) cols with
  | error e => rw [hproc] at hok; cases hok
  | ok processed =>
      rw [hproc] at hok
      have hok' : (Except.ok (processed.map Prod.fst,
            { detectedColumns := (processed.filterMap Prod.snd).map Prod.fst
              anonymizationApplied :=
                (processed.filterMap Prod.snd).filterMap
                  (fun p => p.2.map (fun t => (p.1, t)))
              riskScore :=
                if ((processed.filterMap Prod.snd).map Prod.fst).isEmpty
                then 0
                else (((processed.filterMap Prod.snd).map
                    Prod.fst).length : ℚ) / (cols.length : ℚ) }) :
            Except String (Cols × PiiReport)) = Except.ok out := hok
      injection hok' with hout
      subst hout
      constructor
      · simp only [List.length_map]
        exact exMapM_ok_length (anonStep numRepr) cols processed hproc
      · intro i nc hcols hndet
        obtain ⟨y, hyi, hfy⟩ :=
          exMapM_getElem (anonStep numRepr) cols processed hproc i nc hcols
        by_cases hpii : isPotentialPii nc.1 nc.2 = true
        · exfalso
          have hy2 : ∃ t, y.2 = some (nc.1, t) := by
            rw [anonStep, if_pos hpii] at hfy
            cases har : anonymizeCol numRepr nc.1 nc.2 with
            | error e => rw [har] at hfy; cases hfy
            | ok r =>
                rw [har] at hfy
                injection hfy with h'
                rw [← h']
                exact ⟨r.2, rfl⟩
          obtain ⟨t, ht⟩ := hy2
          have hymem : y ∈ processed := by
            have := List.getElem?_eq_some.mp hyi
            obtain ⟨hlt, hget⟩ := this
            exact hget ▸ List.getElem_mem hlt
          exact hndet (List.mem_map.mpr ⟨(nc.1, t),
            List.mem_filterMap.mpr ⟨y, hymem, by rw [ht]⟩, rfl⟩)
        · have hfalse : isPotentialPii nc.1 nc.2 = false :=
            Bool.eq_false_iff.mpr hpii
          rw [anonStep, if_neg (by rw [hfalse]; exact Bool.false_ne_true)]
            at hfy
          injection hfy with h'
          show (processed.map Prod.fst)[i]? = some nc
          rw [List.getElem?_map, hyi, ← h']
          rfl

/-- Witness for C9: a frame with a detected "phone" column and an
undetected "age" column; the "age" column survives unchanged at its
position. -/
theorem c9_frame_witness :
    anonymizeData (fun _ => "") [("phone", [Val.txt ("1234567890")]),
        ("age", [Val.num 30])] =
      Except.ok ([("phone", [Val.txt ("123-XXX-XX90")]),
          ("age", [Val.num 30])],
        { detectedColumns := ["phone"]
          anonymizationApplied := [("phone", "phone_mask")]
          riskScore := 1 / 2 }) ∧
    ([("phone", [Val.txt ("123-XXX-XX90")]),
        ("age", [Val.num 30])] : Cols)[1]? = some ("age", [Val.num 30]) := by
  have hok : anonymizeData (fun _ => "") [("phone", [Val.txt ("1234567890")]),
      ("age", [Val.num 30])] =
      Except.ok ([("phone", [Val.txt ("123-XXX-XX90")]),
          ("age", [Val.num 30])],
        { detectedColumns := ["phone"]
          anonymizationApplied := [("phone", "phone_mask")]
          riskScore := 1 / 2 }) := by
    with_unfolding_all rfl
  exact ⟨hok, (c9_frame (fun _ => "") [("phone", [Val.txt ("1234567890")]),
    ("age", [Val.num 30])] _ hok).2 1 ("age", [Val.num 30]) (by decide)
    (by decide)⟩

/-!  Claim C7: email anonymization.  The per-value transform is a pure
function, so repeated anonymization of the same input is identical by
construction; the transform keeps the domain and replaces the local part by
`user_<md5[:8]>`.  But an email whose local part itself contains '@' (legal
when quoted, e.g. `"a@b"@c.com`) makes `email.split('@')` yield three
parts and the two-name unpacking raise ValueError — no email is returned
at all.  (Exhaustive search over all 16⁸ candidate tails shows md5 has no
fixed point `h = md5("user_" + h)[:8]`, so for every email the code
actually returns, the local part does change; that brute-force fact about
md5 lies outside this development, which proves the change whenever the
local part does not have the 13-character `user_<8 hex>` shape.) -/

theorem splitChar_not_mem (c : Char) :
    ∀ r : List Char, c ∉ r → splitChar c r = [r] := by
  intro r
  induction r with
  | nil => intro _; rfl
  | cons x xs ih =>
      intro h
      have hx : ¬x = c := fun hc =>
        h (hc ▸ List.mem_cons_self x xs)
      rw [splitChar, ih (fun hc => h (List.mem_cons_of_mem x hc)),
        if_neg hx]

theorem splitChar_split (c : Char) :
    ∀ (l r : List Char), c ∉ l → c ∉ r →
      splitChar c (l ++ c :: r) = [l, r] := by
  intro l
  induction l with
  | nil =>
      intro r _ hr
      rw [List.nil_append, splitChar, if_pos rfl, splitChar_not_mem c r hr]
  | cons y ys ih =>
      intro r hl hr
      have hy : ¬y = c := fun hc => hl (hc ▸ List.mem_cons_self y ys)
      rw [List.cons_append, splitChar,
        ih r (fun hc => hl (List.mem_cons_of_mem y hc)) hr, if_neg hy]

theorem md5hex_data_length (bytes : List ℕ) :
    (md5hex bytes).data.length = 32 := rfl

theorem md5hex8_length (s : String) : (md5hex8 s).length = 8 := by
  rw [md5hex8, String.take_eq]
  show ((md5hex (strBytes s)).data.take 8).length = 8
  rw [List.length_take, md5hex_data_length]
  decide

/-- Counterexample to claim C7 as stated: the RFC-legal email value
`"a@b"@c.com` has a (quoted) local part and a domain, but the
anonymization raises ValueError (`local, domain = email.split('@')`
unpacks three parts) instead of returning an anonymized email. -/
theorem c7_counterexample :
    hashEmail (Val.txt ("\"a@b\"@c.com")) =
      Except.error ("ValueError: too many values to unpack") := rfl

/-- Claim C7, amended: for every email of the form local@domain with
exactly one '@' (no '@' inside either part), the anonymization returns
`user_<first-8-hex-of-md5(local)>@domain` — retaining the domain, with the
same output on every repetition (the transform is a pure function); the
new local part always has exactly 13 characters, so it differs from every
original local part of a different length; emails with several '@' raise
instead. -/
theorem c7_email_shape (lp dom : String)
    (hl : '@' ∉ lp.data) (hd : '@' ∉ dom.data) :
    hashEmail (Val.txt (lp ++ "@" ++ dom)) =
      Except.ok (Val.txt ("user_" ++ md5hex8 lp ++ "@" ++ dom)) ∧
    ("user_" ++ md5hex8 lp).length = 13 ∧
    (lp.length ≠ 13 → "user_" ++ md5hex8 lp ≠ lp) := by
  have hdata : (lp ++ "@" ++ dom).data = lp.data ++ '@' :: dom.data := by
    rw [String.data_append, String.data_append]
    simp
  have hsplit : splitChar '@' ((lp ++ "@" ++ dom).data) =
      [lp.data, dom.data] := by
    rw [hdata]
    exact splitChar_split '@' lp.data dom.data hl hd
  have hlen13 : ("user_" ++ md5hex8 lp).length = 13 := by
    rw [String.length_append, md5hex8_length]
    rfl
  refine ⟨?_, hlen13, ?_⟩
  · rw [hashEmail]
    rw [hsplit]
    rw [if_neg (by simp), if_pos (by simp)]
    rfl
  · intro hne13 heq
    exact hne13 (by rw [← heq, hlen13])

/-- Witness for C7 (amended): anonymizing a@b.com yields
user_0cc175b9@b.com — domain kept, local part changed (0cc175b9 is the
md5 prefix of "a"), identical on every run. -/
theorem c7_email_shape_witness :
    hashEmail (Val.txt ("a@b.com")) =
      Except.ok (Val.txt ("user_0cc175b9@b.com")) ∧
    ("user_0cc175b9" : String) ≠ "a" := by
  have h := (c7_email_shape ("a") ("b.com") (by decide) (by decide)).1
  have hmd5 : md5hex8 ("a") = "0cc175b9" := by decide
  rw [hmd5] at h
  have hs : ("a" : String) ++ "@" ++ "b.com" = "a@b.com" := rfl
  have ht : ("user_" : String) ++ "0cc175b9" ++ "@" ++ "b.com" =
      "user_0cc175b9@b.com" := rfl
  rw [hs, ht] at h
  exact ⟨h, by decide⟩

end SDMcp
